import Mathlib

/-!
Verification of the request-specification and output-assembly core of the
gcdl geospatial data-delivery API.

The development shallowly embeds the Python sources:
  src/api_core/data_request.py          (DataRequest and its date parsing)
  src/api_core/data_request_output.py   (DataRequestOutput)
  src/data_request.py                   (the legacy DataRequest parser)
Strings are modelled as List Char; Python ints are modelled as Int; Python
exceptions are modelled by the Except monad with one constructor per
distinct raise site (each constructor documents the source message).
-/

namespace GCDL

/-- Python exceptions raised by the embedded code.  Each constructor stands
for one distinct error condition in the sources; the comments give the
message or exception class raised there. -/
inductive PyErr where
  /-- ValueError: Invalid range string (bad '-' split or bad '+' suffix). -/
  | malformedRange
  /-- ValueError raised by a failing int(...) conversion. -/
  | intConv
  /-- ValueError: Cannot interpret range string: no maximum value was provided. -/
  | noMaxVal
  /-- ValueError: The starting value cannot exceed the ending value. -/
  | startGtEnd
  /-- ValueError: The starting and ending values must be greater than 0. -/
  | nonPositive
  /-- ValueError: The ending value cannot exceed maxval. -/
  | overMax
  /-- ValueError raised by range(a, b, 0): arg 3 must not be zero. -/
  | zeroStep
  /-- ValueError: Start and end dates must both be specified. -/
  | datesUnspecified
  /-- ValueError: The end date cannot precede the start date. -/
  | endBeforeStart
  /-- ValueError: Invalid month value. -/
  | badMonth (m : Int)
  /-- ValueError raised when unpacking a list of the wrong length. -/
  | unpackCount
  /-- ValueError raised by datetime.date for out-of-range components. -/
  | badDate
  /-- OverflowError raised by date + timedelta past year 9999. -/
  | dateOverflow
  /-- ValueError: Mismatched starting and ending date granularity. -/
  | mismatchedGrain
  /-- AttributeError: the named attribute does not exist. -/
  | attrErr (name : String)
  /-- NameError: the named variable is not defined. -/
  | nameErr (name : String)
  /-- TypeError (e.g. unpacking None). -/
  | typeErr
  /-- KeyError on a dict lookup. -/
  | keyErr (key : String)
  /-- ValueError: Invalid request type. -/
  | invalidRequestType
  /-- ValueError: Invalid resampling method. -/
  | invalidResample (m : String)
  /-- ValueError: Invalid point interpolation method. -/
  | invalidPointMethod (m : String)
  /-- ValueError: No points provided for output. -/
  | noPoints
  /-- ValueError: Invalid date grain matching method. -/
  | invalidGrainMethod (m : String)
  /-- ValueError: dsid does not have requested granularity. -/
  | grainMismatch (dsid : String)
  /-- ValueError: Invalid output format. -/
  | invalidFormat (f : String)
  /-- ValueError: Unsupported point output format. -/
  | unsupportedPointFormat
  /-- ValueError: Unsupported raster output format. -/
  | unsupportedRasterFormat
deriving DecidableEq, Repr

/-- Python str.split(sep) for a one-character separator, on List Char. -/
def pySplit (sep : Char) : List Char → List (List Char)
  | [] => [[]]
  | c :: rest =>
      if c = sep then
        [] :: pySplit sep rest
      else
        match pySplit sep rest with
        | [] => [[c]]
        | h :: t => (c :: h) :: t

/-- Numeric value of a list of decimal digit characters (most significant
first), as used by int(...). -/
def digitsVal (s : List Char) : Int :=
  s.foldl (fun acc c => 10 * acc + (c.toNat - 48)) 0

/-- Python int(str): an optional sign followed by at least one decimal
digit.  (Surrounding whitespace and underscore digit separators, which
Python also tolerates, are not modelled; no input in this code base uses
them.)  A failing conversion raises ValueError. -/
def pyInt (s : List Char) : Except PyErr Int :=
  match s with
  | '-' :: rest =>
      if rest ≠ [] ∧ rest.all Char.isDigit then .ok (-(digitsVal rest))
      else .error .intConv
  | '+' :: rest =>
      if rest ≠ [] ∧ rest.all Char.isDigit then .ok (digitsVal rest)
      else .error .intConv
  | _ =>
      if s ≠ [] ∧ s.all Char.isDigit then .ok (digitsVal s)
      else .error .intConv

/-- Number of elements of Python range(a, b, s) (s assumed nonzero). -/
def pyRangeLen (a b s : Int) : Nat :=
  if 0 < s then ((b - a + s - 1).fdiv s).toNat
  else ((a - b + (-s) - 1).fdiv (-s)).toNat

/-- Python list(range(a, b, s)) for a nonzero step s. -/
def pyRangeList (a b s : Int) : List Int :=
  (List.range (pyRangeLen a b s)).map (fun (i : Nat) => a + s * (i : Int))

-- Date granularity constants (data_request.py lines 10-13).
def NONE : Nat := 0
def ANNUAL : Nat := 1
def MONTHLY : Nat := 2
def DAILY : Nat := 3

-- Request type constants (data_request.py lines 16-17).
def REQ_RASTER : Int := 0
def REQ_POINT : Int := 1

/-- RequestDate namedtuple (data_request.py line 42): a sparse calendar
point; month and day may be absent. -/
structure RequestDate where
  year : Int
  month : Option Int
  day : Option Int
deriving DecidableEq, Repr

/-- The guard "maxval is not None and endval > maxval" from
DataRequest._parseRangeStr. -/
def exceedsMax (endval : Int) : Option Int → Bool
  | none => false
  | some m => endval > m

/-- The chain of error checks and the final list(range(...)) call at the
end of DataRequest._parseRangeStr (data_request.py lines 322-341). -/
def rangeChecks (startval endval inc : Int) (maxval : Option Int) :
    Except PyErr (List Int) :=
  if startval > endval then
    .error .startGtEnd
  else if startval ≤ 0 ∨ endval ≤ 0 then
    .error .nonPositive
  else if exceedsMax endval maxval then
    .error .overMax
  else if inc = 0 then
    .error .zeroStep
  else
    pure (pyRangeList startval (endval + 1) inc)

/-- DataRequest._parseRangeStr (data_request.py lines 283-341): parses a
range string START-END or START-END+INCREMENT, END possibly the literal N
meaning maxval, and returns list(range(startval, endval + 1, inc)). -/
def parseRangeStr (rangestr : List Char) (maxval : Option Int) :
    Except PyErr (List Int) :=
  match pySplit '-' rangestr with
  | [p0, p1] => do
      let startval ← pyInt p0
      let (endvalStr, inc) ←
        if p1.contains '+' then
          match pySplit '+' p1 with
          | [e0, e1] => do
              let i ← pyInt e1
              pure (e0, i)
          | _ => .error PyErr.malformedRange
        else
          pure (p1, (1 : Int))
      let endval ←
        if endvalStr = ['N'] then
          match maxval with
          | none => Except.error PyErr.noMaxVal
          | some m => pure m
        else
          pyInt endvalStr
      rangeChecks startval endval inc maxval
  | _ => .error .malformedRange

/-- The sequence the specification describes for a range expression: the
ascending integers from a to b inclusive, keeping only those that land
exactly on a step of size k from a. -/
def specSteps (a b k : Int) : List Int :=
  ((List.range ((b - a).toNat + 1)).map (fun (i : Nat) => a + (i : Int))).filter
    (fun x => (x - a) % k = 0)

theorem pySplit_ne_nil (sep : Char) (s : List Char) : pySplit sep s ≠ [] := by
  induction s with
  | nil => simp [pySplit]
  | cons c rest ih =>
      rw [pySplit]
      split
      · simp
      · cases h : pySplit sep rest with
        | nil => simp
        | cons h t => simp

theorem pySplit_of_not_mem {sep : Char} {s : List Char} (h : sep ∉ s) :
    pySplit sep s = [s] := by
  induction s with
  | nil => rfl
  | cons c rest ih =>
      rw [pySplit]
      have hc : ¬ c = sep := by
        intro hcs; exact h (hcs ▸ List.mem_cons_self c rest)
      rw [if_neg hc, ih (fun hm => h (List.mem_cons_of_mem c hm))]

theorem pySplit_append {sep : Char} {s1 : List Char} (s2 : List Char)
    (h : sep ∉ s1) : pySplit sep (s1 ++ sep :: s2) = s1 :: pySplit sep s2 := by
  induction s1 with
  | nil => simp [pySplit]
  | cons c rest ih =>
      have hc : ¬ c = sep := by
        intro hcs; exact h (hcs ▸ List.mem_cons_self c rest)
      rw [List.cons_append, pySplit, if_neg hc,
        ih (fun hm => h (List.mem_cons_of_mem c hm))]

theorem mem_baseRange {a b x : Int} (hab : a ≤ b) :
    x ∈ (List.range ((b - a).toNat + 1)).map (fun (i : Nat) => a + (i : Int)) ↔
      a ≤ x ∧ x ≤ b := by
  simp only [List.mem_map, List.mem_range]
  constructor
  · rintro ⟨i, hi, rfl⟩
    constructor
    · omega
    · have : (i : Int) ≤ ((b - a).toNat : Int) := by exact_mod_cast Nat.lt_succ_iff.mp hi
      omega
  · rintro ⟨h1, h2⟩
    refine ⟨(x - a).toNat, ?_, ?_⟩
    · omega
    · omega

theorem pyRangeList_spec (a b k : Int) (hk : 0 < k) (hab : a ≤ b) :
    ∀ x, x ∈ pyRangeList a (b + 1) k ↔ a ≤ x ∧ x ≤ b ∧ k ∣ (x - a) := by
  intro x
  have hfd : (b + 1 - a + k - 1).fdiv k = (b - a) / k + 1 := by
    rw [Int.fdiv_eq_ediv _ (le_of_lt hk)]
    have : b + 1 - a + k - 1 = (b - a) + 1 * k := by ring
    rw [this, Int.add_mul_ediv_right _ _ (ne_of_gt hk)]
  have hn : (pyRangeLen a (b + 1) k : Int) = (b - a) / k + 1 := by
    rw [pyRangeLen, if_pos hk, hfd]
    have h0 : 0 ≤ (b - a) / k := Int.ediv_nonneg (by omega) (le_of_lt hk)
    omega
  simp only [pyRangeList, List.mem_map, List.mem_range]
  constructor
  · rintro ⟨i, hi, rfl⟩
    have hi' : (i : Int) < (b - a) / k + 1 := by rw [← hn]; exact_mod_cast hi
    have hile : (i : Int) ≤ (b - a) / k := by omega
    have hmul : (i : Int) * k ≤ b - a := (Int.le_ediv_iff_mul_le hk).mp hile
    have hi0 : (0 : Int) ≤ (i : Int) := Int.natCast_nonneg i
    refine ⟨by nlinarith, by nlinarith, ⟨i, by ring⟩⟩
  · rintro ⟨h1, h2, c, hc⟩
    have hc0 : 0 ≤ c := by nlinarith
    refine ⟨c.toNat, ?_, ?_⟩
    · have : c ≤ (b - a) / k := by
        apply (Int.le_ediv_iff_mul_le hk).mpr
        nlinarith
      omega
    · have : (c.toNat : Int) = c := Int.toNat_of_nonneg hc0
      rw [this]
      omega

theorem pyRangeList_pairwise (a b k : Int) (hk : 0 < k) :
    List.Pairwise (· < ·) (pyRangeList a b k) := by
  rw [pyRangeList, List.pairwise_map]
  have := List.pairwise_lt_range (pyRangeLen a b k)
  refine this.imp ?_
  intro i j hij
  have : (i : Int) < (j : Int) := by exact_mod_cast hij
  nlinarith

theorem specSteps_spec (a b k : Int) (hab : a ≤ b) :
    ∀ x, x ∈ specSteps a b k ↔ a ≤ x ∧ x ≤ b ∧ k ∣ (x - a) := by
  intro x
  simp only [specSteps, List.mem_filter, mem_baseRange hab, decide_eq_true_eq,
    Int.emod_emod_of_dvd]
  rw [Int.dvd_iff_emod_eq_zero]
  tauto

theorem specSteps_pairwise (a b k : Int) :
    List.Pairwise (· < ·) (specSteps a b k) := by
  apply List.Pairwise.sublist (List.filter_sublist _)
  rw [List.pairwise_map]
  refine (List.pairwise_lt_range _).imp ?_
  intro i j hij
  have : (i : Int) < (j : Int) := by exact_mod_cast hij
  omega

theorem pyRangeList_eq_specSteps (a b k : Int) (hk : 0 < k) (hab : a ≤ b) :
    pyRangeList a (b + 1) k = specSteps a b k := by
  have hperm : (pyRangeList a (b + 1) k).Perm (specSteps a b k) := by
    rw [List.perm_ext_iff_of_nodup
      ((pyRangeList_pairwise a (b + 1) k hk).nodup)
      ((specSteps_pairwise a b k).nodup)]
    intro x
    rw [pyRangeList_spec a b k hk hab x, specSteps_spec a b k hab x]
  exact List.eq_of_perm_of_sorted hperm
    ((pyRangeList_pairwise a (b + 1) k hk).imp (fun h => le_of_lt h))
    ((specSteps_pairwise a b k).imp (fun h => le_of_lt h))

@[simp] theorem ok_bind {α β ε : Type} (a : α) (f : α → Except ε β) :
    (Except.ok a >>= f) = f a := rfl

@[simp] theorem error_bind {α β ε : Type} (e : ε) (f : α → Except ε β) :
    ((Except.error e : Except ε α) >>= f) = .error e := rfl

@[simp] theorem pure_eq_ok {α ε : Type} (a : α) :
    (pure a : Except ε α) = .ok a := rfl

theorem contains_false_of_not_mem {c : Char} {s : List Char} (h : c ∉ s) :
    s.contains c = false := by simpa using h

theorem contains_true_of_mem {c : Char} {s : List Char} (h : c ∈ s) :
    s.contains c = true := by simpa using h

/-- Reduction of parseRangeStr on a well-split plain START-END string. -/
theorem parseRangeStr_plain {s1 s2 : List Char} (maxval : Option Int)
    (h1 : '-' ∉ s1) (h2 : '-' ∉ s2) (h3 : '+' ∉ s2) (hN : s2 ≠ ['N'])
    {a b : Int} (ha : pyInt s1 = .ok a) (hb : pyInt s2 = .ok b) :
    parseRangeStr (s1 ++ '-' :: s2) maxval = rangeChecks a b 1 maxval := by
  have hsp : pySplit '-' (s1 ++ '-' :: s2) = [s1, s2] := by
    rw [pySplit_append s2 h1, pySplit_of_not_mem h2]
  simp [parseRangeStr, hsp, ha, hb, contains_false_of_not_mem h3, h3, hN]

/-- Reduction of parseRangeStr on a well-split START-END+INCREMENT string. -/
theorem parseRangeStr_plus {s1 s2 s3 : List Char} (maxval : Option Int)
    (h1 : '-' ∉ s1) (h2 : '-' ∉ s2) (h3 : '-' ∉ s3)
    (h4 : '+' ∉ s2) (h5 : '+' ∉ s3) (hN : s2 ≠ ['N'])
    {a b k : Int} (ha : pyInt s1 = .ok a) (hb : pyInt s2 = .ok b)
    (hk : pyInt s3 = .ok k) :
    parseRangeStr (s1 ++ '-' :: (s2 ++ '+' :: s3)) maxval =
      rangeChecks a b k maxval := by
  have hmem : ('-' : Char) ∉ s2 ++ '+' :: s3 := by
    simp only [List.mem_append, List.mem_cons]
    rintro (h | h | h)
    · exact h2 h
    · exact absurd h (by decide)
    · exact h3 h
  have hsp : pySplit '-' (s1 ++ '-' :: (s2 ++ '+' :: s3)) = [s1, s2 ++ '+' :: s3] := by
    rw [pySplit_append _ h1, pySplit_of_not_mem hmem]
  have hsp2 : pySplit '+' (s2 ++ '+' :: s3) = [s2, s3] := by
    rw [pySplit_append s3 h4, pySplit_of_not_mem h5]
  have hcontains : (s2 ++ '+' :: s3).contains '+' = true :=
    contains_true_of_mem (by simp)
  simp [parseRangeStr, hsp, hsp2, hcontains, List.mem_append, ha, hb, hk, hN]

/-- Reduction of parseRangeStr on a START-N string with a max value. -/
theorem parseRangeStr_withN {s1 : List Char} (m : Int)
    (h1 : '-' ∉ s1) {a : Int} (ha : pyInt s1 = .ok a) :
    parseRangeStr (s1 ++ '-' :: ['N']) (some m) = rangeChecks a m 1 (some m) := by
  have hsp : pySplit '-' (s1 ++ '-' :: ['N']) = [s1, ['N']] := by
    rw [pySplit_append _ h1, pySplit_of_not_mem (by decide)]
  simp [parseRangeStr, hsp, ha]

/-- When all the error checks pass, rangeChecks returns the stepped range. -/
theorem rangeChecks_ok {a b k : Int} (maxval : Option Int) (ha : 0 < a)
    (hab : a ≤ b) (hk : 0 < k) (hmax : ∀ m, maxval = some m → b ≤ m) :
    rangeChecks a b k maxval = .ok (specSteps a b k) := by
  have hex : exceedsMax b maxval = false := by
    cases maxval with
    | none => rfl
    | some m =>
        have := hmax m rfl
        simp only [exceedsMax, decide_eq_false_iff_not]
        omega
  rw [rangeChecks, if_neg (by omega), if_neg (by omega), hex]
  simp only [Bool.false_eq_true, if_false]
  rw [if_neg (by omega), pyRangeList_eq_specSteps a b k hk hab]
  rfl

/-- C3: for every well-formed range string START-END or START-END+INCREMENT
with 0 < START <= END (END being maxValue when written as the literal N, and
END <= maxValue when maxValue is given), parseRangeStr returns exactly the
ascending integers from START to END inclusive stepped by INCREMENT
(default 1), the end point included only when it lands exactly on a step. -/
theorem claim_c3 :
    (∀ (s1 s2 : List Char) (a b : Int) (maxval : Option Int),
        '-' ∉ s1 → '-' ∉ s2 → '+' ∉ s2 → s2 ≠ ['N'] →
        pyInt s1 = .ok a → pyInt s2 = .ok b →
        0 < a → a ≤ b → (∀ m, maxval = some m → b ≤ m) →
        parseRangeStr (s1 ++ '-' :: s2) maxval = .ok (specSteps a b 1))
  ∧ (∀ (s1 s2 s3 : List Char) (a b k : Int) (maxval : Option Int),
        '-' ∉ s1 → '-' ∉ s2 → '-' ∉ s3 → '+' ∉ s2 → '+' ∉ s3 → s2 ≠ ['N'] →
        pyInt s1 = .ok a → pyInt s2 = .ok b → pyInt s3 = .ok k →
        0 < a → a ≤ b → 0 < k → (∀ m, maxval = some m → b ≤ m) →
        parseRangeStr (s1 ++ '-' :: (s2 ++ '+' :: s3)) maxval =
          .ok (specSteps a b k))
  ∧ (∀ (s1 : List Char) (a m : Int),
        '-' ∉ s1 → pyInt s1 = .ok a → 0 < a → a ≤ m →
        parseRangeStr (s1 ++ '-' :: ['N']) (some m) = .ok (specSteps a m 1)) := by
  refine ⟨?_, ?_, ?_⟩
  · intro s1 s2 a b maxval h1 h2 h3 hN ha hb hpos hab hmax
    rw [parseRangeStr_plain maxval h1 h2 h3 hN ha hb]
    exact rangeChecks_ok maxval hpos hab one_pos hmax
  · intro s1 s2 s3 a b k maxval h1 h2 h3 h4 h5 hN ha hb hk hpos hab hkpos hmax
    rw [parseRangeStr_plus maxval h1 h2 h3 h4 h5 hN ha hb hk]
    exact rangeChecks_ok maxval hpos hab hkpos hmax
  · intro s1 a m h1 ha hpos ham
    rw [parseRangeStr_withN m h1 ha]
    exact rangeChecks_ok (some m) hpos ham one_pos (by rintro m' ⟨⟩; exact le_refl m)

/-- Witness for C3: the two concrete examples from the specification,
parse of 1-10+2 with no max value and parse of 1-N with max value 5. -/
theorem claim_c3_witness :
    parseRangeStr (['1'] ++ '-' :: (['1', '0'] ++ '+' :: ['2'])) none =
        .ok [1, 3, 5, 7, 9]
    ∧ parseRangeStr (['1'] ++ '-' :: ['N']) (some 5) = .ok [1, 2, 3, 4, 5] := by
  constructor
  · have h := claim_c3.2.1 ['1'] ['1', '0'] ['2'] 1 10 2 none
      (by decide) (by decide) (by decide) (by decide) (by decide) (by decide)
      rfl rfl rfl (by decide) (by decide) (by decide)
      (by rintro m ⟨⟩)
    exact h.trans (by rfl)
  · have h := claim_c3.2.2 ['1'] 1 5 (by decide) rfl (by decide) (by decide)
    exact h.trans (by rfl)

/-- C4: the range parser raises a distinct error for each failure
condition, in order: malformed syntax (bad '-' split or bad '+' suffix),
then START greater than END, then a nonpositive bound, then END above the
given maxValue; no sequence is returned in any of these cases. -/
theorem claim_c4 :
    (∀ (s : List Char) (maxval : Option Int),
        (pySplit '-' s).length ≠ 2 →
        parseRangeStr s maxval = .error .malformedRange)
  ∧ (∀ (s1 p1 : List Char) (a : Int) (maxval : Option Int),
        '-' ∉ s1 → '-' ∉ p1 → pyInt s1 = .ok a → '+' ∈ p1 →
        (pySplit '+' p1).length ≠ 2 →
        parseRangeStr (s1 ++ '-' :: p1) maxval = .error .malformedRange)
  ∧ (∀ (s1 s2 : List Char) (a b : Int) (maxval : Option Int),
        '-' ∉ s1 → '-' ∉ s2 → '+' ∉ s2 → s2 ≠ ['N'] →
        pyInt s1 = .ok a → pyInt s2 = .ok b →
        (b < a → parseRangeStr (s1 ++ '-' :: s2) maxval = .error .startGtEnd)
        ∧ (a ≤ b → (a ≤ 0 ∨ b ≤ 0) →
            parseRangeStr (s1 ++ '-' :: s2) maxval = .error .nonPositive)
        ∧ (∀ m, maxval = some m → a ≤ b → 0 < a → 0 < b → m < b →
            parseRangeStr (s1 ++ '-' :: s2) maxval = .error .overMax))
  ∧ List.Pairwise (· ≠ ·)
      [PyErr.malformedRange, PyErr.startGtEnd, PyErr.nonPositive,
        PyErr.overMax] := by
  refine ⟨?_, ?_, ?_, by decide⟩
  · intro s maxval hlen
    rcases hsp : pySplit '-' s with _ | ⟨p0, _ | ⟨p1, _ | ⟨p2, rest⟩⟩⟩ <;>
      simp [parseRangeStr, hsp] <;> simp [hsp] at hlen
  · intro s1 p1 a maxval h1 h2 ha hplus hlen
    have hsp : pySplit '-' (s1 ++ '-' :: p1) = [s1, p1] := by
      rw [pySplit_append _ h1, pySplit_of_not_mem h2]
    rcases hq : pySplit '+' p1 with _ | ⟨e0, _ | ⟨e1, _ | ⟨e2, rest⟩⟩⟩ <;>
      simp [parseRangeStr, hsp, ha, hplus, contains_true_of_mem hplus, hq] <;>
      simp [hq] at hlen
  · intro s1 s2 a b maxval h1 h2 h3 hN ha hb
    have hred := parseRangeStr_plain maxval h1 h2 h3 hN ha hb
    refine ⟨?_, ?_, ?_⟩
    · intro hba
      rw [hred, rangeChecks, if_pos (by omega)]
    · intro hab hnp
      rw [hred, rangeChecks, if_neg (by omega), if_pos (by omega)]
    · rintro m ⟨⟩ hab hapos hbpos hmb
      rw [hred, rangeChecks, if_neg (by omega), if_neg (by omega), if_pos]
      simp only [exceedsMax, decide_eq_true_eq]
      omega

/-- Witness for C4: each of the four distinct errors raised at a concrete
input, in particular 1-2-3 (bad split), 1-3+4+5 (bad plus suffix),
5-1 (start above end), 0-3 (nonpositive start) and 1-7 with max 5. -/
theorem claim_c4_witness :
    parseRangeStr ('1' :: '-' :: '2' :: '-' :: ['3']) none =
        .error .malformedRange
    ∧ parseRangeStr (['1'] ++ '-' :: ('3' :: '+' :: '4' :: '+' :: ['5'])) none =
        .error .malformedRange
    ∧ parseRangeStr (['5'] ++ '-' :: ['1']) none = .error .startGtEnd
    ∧ parseRangeStr (['0'] ++ '-' :: ['3']) none = .error .nonPositive
    ∧ parseRangeStr (['1'] ++ '-' :: ['7']) (some 5) = .error .overMax := by
  refine ⟨?_, ?_, ?_, ?_, ?_⟩
  · exact claim_c4.1 ('1' :: '-' :: '2' :: '-' :: ['3']) none (by decide)
  · exact claim_c4.2.1 ['1'] ('3' :: '+' :: '4' :: '+' :: ['5']) 1 none
      (by decide) (by decide) rfl (by decide) (by decide)
  · exact (claim_c4.2.2.1 ['5'] ['1'] 5 1 none (by decide) (by decide)
      (by decide) (by decide) rfl rfl).1 (by decide)
  · exact (claim_c4.2.2.1 ['0'] ['3'] 0 3 none (by decide) (by decide)
      (by decide) (by decide) rfl rfl).2.1 (by decide) (by decide)
  · exact (claim_c4.2.2.1 ['1'] ['7'] 1 7 (some 5) (by decide) (by decide)
      (by decide) (by decide) rfl rfl).2.2 5 rfl (by decide) (by decide)
      (by decide) (by decide)

/-- Leap year rule of the proleptic Gregorian calendar used by the Python
datetime module. -/
def isLeap (y : Int) : Bool :=
  y % 4 = 0 ∧ (y % 100 ≠ 0 ∨ y % 400 = 0)

/-- Number of days of month m (1-12) of year y in the Gregorian calendar. -/
def daysInMonth (y m : Int) : Int :=
  if m = 2 then (if isLeap y then 29 else 28)
  else if m = 4 ∨ m = 6 ∨ m = 9 ∨ m = 11 then 30
  else 31

/-- Number of days of year y that precede month m (1-12). -/
def daysBeforeMonth (y m : Int) : Int :=
  (if m = 1 then 0
   else if m = 2 then 31
   else if m = 3 then 59
   else if m = 4 then 90
   else if m = 5 then 120
   else if m = 6 then 151
   else if m = 7 then 181
   else if m = 8 then 212
   else if m = 9 then 243
   else if m = 10 then 273
   else if m = 11 then 304
   else 334)
  + (if 2 < m ∧ isLeap y then 1 else 0)

/-- Number of days of a year. -/
def yearDays (y : Int) : Int := if isLeap y then 366 else 365

/-- Number of days before January 1 of year y (y at least 1), as computed
by the datetime module for proleptic Gregorian ordinals.  The divisions
are Python floor divisions; the arguments are nonnegative here, so
Euclidean division agrees. -/
def daysBeforeYear (y : Int) : Int :=
  365 * (y - 1) + (y - 1) / 4 - (y - 1) / 100 + (y - 1) / 400

/-- A datetime.date value: a concrete calendar day. -/
structure PyDate where
  year : Int
  month : Int
  day : Int
deriving DecidableEq, Repr

/-- The component bounds enforced by the datetime.date constructor. -/
def validDate (d : PyDate) : Prop :=
  1 ≤ d.year ∧ d.year ≤ 9999 ∧ 1 ≤ d.month ∧ d.month ≤ 12 ∧
    1 ≤ d.day ∧ d.day ≤ daysInMonth d.year d.month

instance (d : PyDate) : Decidable (validDate d) := by
  unfold validDate; infer_instance

/-- The datetime.date constructor: raises ValueError for out-of-range
components. -/
def mkPyDate (y m d : Int) : Except PyErr PyDate :=
  if validDate ⟨y, m, d⟩ then .ok ⟨y, m, d⟩ else .error .badDate

/-- The proleptic Gregorian ordinal of a date (date.toordinal). -/
def toOrd (d : PyDate) : Int :=
  daysBeforeYear d.year + daysBeforeMonth d.year d.month + d.day

/-- The calendar successor of a day. -/
def nextDate (d : PyDate) : PyDate :=
  if d.day < daysInMonth d.year d.month then ⟨d.year, d.month, d.day + 1⟩
  else if d.month < 12 then ⟨d.year, d.month + 1, 1⟩
  else ⟨d.year + 1, 1, 1⟩

/-- Python date comparison (lexicographic on year, month, day). -/
def dateLt (a b : PyDate) : Prop :=
  a.year < b.year ∨ (a.year = b.year ∧
    (a.month < b.month ∨ (a.month = b.month ∧ a.day < b.day)))

instance (a b : PyDate) : Decidable (dateLt a b) := by
  unfold dateLt; infer_instance

/-- Python date + timedelta(days=1), which raises OverflowError when the
result would pass date.max = 9999-12-31. -/
def pyDateSucc (d : PyDate) : Except PyErr PyDate :=
  if d = ⟨9999, 12, 31⟩ then .error .dateOverflow else .ok (nextDate d)

/-- The while loop of the daily branch of _parseSimpleDateRange
(data_request.py lines 269-274): append inc_date and advance by one day
until inc_date equals end_date.  Fuel-driven; the fuel passed by
dailyBranch is the exact number of iterations of the Python loop.  (The
in-loop increments cannot overflow: the loop stops at end_date, which the
preceding pyDateSucc call has shown to be representable.) -/
def dailyWalk : Nat → PyDate → PyDate → List PyDate
  | 0, _, _ => []
  | fuel + 1, cur, stop =>
      if cur = stop then [] else cur :: dailyWalk fuel (nextDate cur) stop

/-- Number of iterations of the daily while loop. -/
def dailyFuel (startD stop : PyDate) : Nat := (toOrd stop - toOrd startD).toNat

/-- The list comprehension [int(val) for val in parts]: converts every
part, propagating the first conversion error. -/
def pyIntList : List (List Char) → Except PyErr (List Int)
  | [] => .ok []
  | s :: rest => do
      let v ← pyInt s
      let vs ← pyIntList rest
      pure (v :: vs)

/-- Tuple unpacking x, y = lst: raises ValueError unless lst has exactly
two elements. -/
def unpack2 : List Int → Except PyErr (Int × Int)
  | [a, b] => .ok (a, b)
  | _ => .error .unpackCount

/-- Tuple unpacking x, y, z = lst for exactly three elements. -/
def unpack3 : List Int → Except PyErr (Int × Int × Int)
  | [a, b, c] => .ok (a, b, c)
  | _ => .error .unpackCount

/-- The annual branch of _parseSimpleDateRange (data_request.py lines
211-222). -/
def annualBranch (date_start date_end : List Char) :
    Except PyErr (List RequestDate × Nat) := do
  let s ← pyInt date_start
  let e ← pyInt date_end
  if e + 1 ≤ s then
    .error .endBeforeStart
  else
    pure ((pyRangeList s (e + 1) 1).map (fun y => ⟨y, none, none⟩), ANNUAL)

/-- The while loop of the monthly branch of _parseSimpleDateRange
(data_request.py lines 240-248): sy is start_y; the loop state is cur_y,
cur_m and m_cnt.  Fuel-driven; monthlyBranch passes the exact iteration
count of the Python loop. -/
def monthlyWalk (sy ey em : Int) : Nat → Int → Int → Int → List (Int × Int)
  | 0, _, _, _ => []
  | fuel + 1, cy, cm, mcnt =>
      if cy * 12 + cm ≤ ey * 12 + em then
        (cy, cm) ::
          monthlyWalk sy ey em fuel (sy + (mcnt + 1).fdiv 12)
            ((mcnt + 1).fmod 12 + 1) (mcnt + 1)
      else []

/-- Number of iterations of the monthly while loop. -/
def monthlyFuel (sy sm ey em : Int) : Nat :=
  (ey * 12 + em - (sy * 12 + sm) + 1).toNat

/-- The monthly branch of _parseSimpleDateRange (data_request.py lines
224-248). -/
def monthlyBranch (date_start date_end : List Char) :
    Except PyErr (List RequestDate × Nat) := do
  let sParts ← pyIntList (pySplit '-' date_start)
  let (sy, sm) ← unpack2 sParts
  let eParts ← pyIntList (pySplit '-' date_end)
  let (ey, em) ← unpack2 eParts
  if sm < 1 ∨ sm > 12 then
    .error (.badMonth sm)
  else if em < 1 ∨ em > 12 then
    .error (.badMonth em)
  else if ey * 12 + em < sy * 12 + sm then
    .error .endBeforeStart
  else
    pure ((monthlyWalk sy ey em (monthlyFuel sy sm ey em) sy sm (sm - 1)).map
      (fun p => ⟨p.1, some p.2, none⟩), MONTHLY)

/-- Conversion from a concrete day to the RequestDate held in results. -/
def dayToRD (d : PyDate) : RequestDate := ⟨d.year, some d.month, some d.day⟩

/-- The daily branch of _parseSimpleDateRange (data_request.py lines
250-274). -/
def dailyBranch (date_start date_end : List Char) :
    Except PyErr (List RequestDate × Nat) := do
  let sParts ← pyIntList (pySplit '-' date_start)
  let (sy, sm, sd) ← unpack3 sParts
  let eParts ← pyIntList (pySplit '-' date_end)
  let (ey, em, ed) ← unpack3 eParts
  let incDate ← mkPyDate sy sm sd
  let endDate ← mkPyDate ey em ed
  if dateLt endDate incDate then
    .error .endBeforeStart
  else do
    let stop ← pyDateSucc endDate
    pure ((dailyWalk (dailyFuel incDate stop) incDate stop).map dayToRD, DAILY)

/-- DataRequest._parseSimpleDateRange (data_request.py lines 196-281). -/
def parseSimpleDateRange (date_start date_end : Option (List Char)) :
    Except PyErr (List RequestDate × Nat) :=
  let ds := date_start.getD []
  let de := date_end.getD []
  if ds = [] ∨ de = [] then .error .datesUnspecified
  else if ds.length = 4 ∧ de.length = 4 then annualBranch ds de
  else if ds.length = 7 ∧ de.length = 7 then monthlyBranch ds de
  else if ds.length = 10 ∧ de.length = 10 then dailyBranch ds de
  else .error .mismatchedGrain

/-- DataRequest._parseYMD (data_request.py lines 343-380).  The body is
broken: for a non-None years argument its first action is the call
self._parseDateRange(years), and no method of that name exists on the
class (the range parser is named _parseRangeStr), so an AttributeError is
raised before anything else happens; moreover the local variable dates is
never initialized and the method has no return statement, so when years is
None it falls off the end and returns None. -/
def parseYMD (years months days : Option (List Char)) :
    Except PyErr (Option (List RequestDate × Nat)) :=
  if years.isSome then .error (.attrErr "_parseDateRange")
  else .ok none

/-- DataRequest._parseDates (data_request.py lines 382-404).  In the
combinatorial branch the tuple unpacking dates, date_graim = _parseYMD(...)
either propagates the AttributeError from _parseYMD or raises a TypeError
because _parseYMD returned None, which cannot be unpacked. -/
def parseDates (date_start date_end years months days : Option (List Char)) :
    Except PyErr (List RequestDate × Nat) :=
  if date_start.getD [] = [] ∧ date_end.getD [] = [] ∧ years.getD [] = [] ∧
      months.getD [] = [] ∧ days.getD [] = [] then
    .ok ([], NONE)
  else if date_start.isSome ∨ date_end.isSome then
    parseSimpleDateRange date_start date_end
  else
    match parseYMD years months days with
    | .error e => .error e
    | .ok _ => .error .typeErr

theorem yearDays_bounds (y : Int) : 365 ≤ yearDays y ∧ yearDays y ≤ 366 := by
  unfold yearDays; split <;> omega

theorem daysInMonth_pos (y m : Int) : 28 ≤ daysInMonth y m := by
  unfold daysInMonth
  split
  · split <;> omega
  · split <;> omega

theorem dbm_step (y m : Int) (h1 : 1 ≤ m) (h2 : m ≤ 11) :
    daysBeforeMonth y (m + 1) = daysBeforeMonth y m + daysInMonth y m := by
  interval_cases m <;> cases hL : isLeap y <;>
    simp [daysBeforeMonth, daysInMonth, hL]

theorem dbm_bounds (y m : Int) (h1 : 1 ≤ m) (h2 : m ≤ 12) :
    0 ≤ daysBeforeMonth y m ∧
      daysBeforeMonth y m + daysInMonth y m ≤ yearDays y := by
  interval_cases m <;> cases hL : isLeap y <;>
    simp [daysBeforeMonth, daysInMonth, yearDays, hL]

theorem dbm_one (y : Int) : daysBeforeMonth y 1 = 0 := by
  norm_num [daysBeforeMonth]

theorem dbm_last (y : Int) :
    daysBeforeMonth y 12 + daysInMonth y 12 = yearDays y := by
  cases hL : isLeap y <;> simp [daysBeforeMonth, daysInMonth, yearDays, hL]

theorem dby_succ (y : Int) :
    daysBeforeYear (y + 1) = daysBeforeYear y + yearDays y := by
  have hL : isLeap y = true ↔ (y % 4 = 0 ∧ (y % 100 ≠ 0 ∨ y % 400 = 0)) := by
    simp [isLeap]
  cases hc : isLeap y with
  | true =>
      rw [hc] at hL
      simp only [yearDays, hc, if_true]
      have := hL.mp rfl
      simp only [daysBeforeYear]
      omega
  | false =>
      have : ¬ (y % 4 = 0 ∧ (y % 100 ≠ 0 ∨ y % 400 = 0)) := by
        rw [← hL, hc]; simp
      simp only [yearDays, hc, if_false, Bool.false_eq_true]
      simp only [daysBeforeYear]
      omega

theorem dby_mono (y y' : Int) (hy : 1 ≤ y) (h : y < y') :
    daysBeforeYear y + yearDays y ≤ daysBeforeYear y' := by
  have key : ∀ n : Nat, daysBeforeYear y + yearDays y ≤ daysBeforeYear (y + 1 + n) := by
    intro n
    induction n with
    | zero => simp [dby_succ y]
    | succ k ih =>
        push_cast
        have := dby_succ (y + 1 + k)
        have hb := yearDays_bounds (y + 1 + k)
        have heq2 : daysBeforeYear (y + 1 + ((k : Int) + 1)) =
            daysBeforeYear (y + 1 + k) + yearDays (y + 1 + k) := by
          have heq : y + 1 + ((k : Int) + 1) = (y + 1 + k) + 1 := by ring
          rw [heq, dby_succ (y + 1 + k)]
        push_cast at ih
        omega
  have hn : ∃ n : Nat, y' = y + 1 + n := ⟨(y' - y - 1).toNat, by omega⟩
  obtain ⟨n, rfl⟩ := hn
  exact key n

theorem dbm_mono (y m m' : Int) (h1 : 1 ≤ m) (hmm : m < m') (h2 : m' ≤ 12) :
    daysBeforeMonth y m + daysInMonth y m ≤ daysBeforeMonth y m' := by
  have key : ∀ n : Nat, m + 1 + n ≤ 12 →
      daysBeforeMonth y m + daysInMonth y m ≤ daysBeforeMonth y (m + 1 + n) := by
    intro n
    induction n with
    | zero => intro hb; simp [dbm_step y m h1 (by omega)]
    | succ k ih =>
        intro hb
        push_cast at hb ⊢
        have hstep := dbm_step y (m + 1 + k) (by omega) (by omega)
        have := ih (by push_cast; omega)
        have hpos : 0 ≤ daysInMonth y (m + 1 + (k : Int)) := by
          have := daysInMonth_pos y (m + 1 + (k : Int))
          omega
        have heq : m + 1 + ((k : Int) + 1) = (m + 1 + k) + 1 := by ring
        rw [heq, hstep]
        omega
  have hn : ∃ n : Nat, m' = m + 1 + n := ⟨(m' - m - 1).toNat, by omega⟩
  obtain ⟨n, rfl⟩ := hn
  exact key n (by omega)

theorem toOrd_lt {a b : PyDate} (ha : validDate a) (hb : validDate b)
    (h : dateLt a b) : toOrd a < toOrd b := by
  obtain ⟨hay1, hay2, ham1, ham2, had1, had2⟩ := ha
  obtain ⟨hby1, hby2, hbm1, hbm2, hbd1, hbd2⟩ := hb
  rcases h with hy | ⟨hy, hm | ⟨hm, hd⟩⟩
  · have h1 := dby_mono a.year b.year hay1 hy
    have h2 := (dbm_bounds a.year a.month ham1 ham2).2
    have h3 := (dbm_bounds b.year b.month hbm1 hbm2).1
    have h4 := yearDays_bounds a.year
    unfold toOrd
    omega
  · have h1 := dbm_mono a.year a.month b.month ham1 hm hbm2
    unfold toOrd
    rw [hy] at h1 had2 ⊢
    omega
  · unfold toOrd
    rw [hy, hm]
    omega

theorem dateLt_trichotomy (a b : PyDate) :
    dateLt a b ∨ a = b ∨ dateLt b a := by
  unfold dateLt
  rcases a with ⟨ay, am, ad⟩
  rcases b with ⟨cy, cm, cd⟩
  simp only [PyDate.mk.injEq]
  omega

theorem toOrd_le {a b : PyDate} (ha : validDate a) (hb : validDate b)
    (h : ¬ dateLt b a) : toOrd a ≤ toOrd b := by
  rcases dateLt_trichotomy a b with hlt | heq | hgt
  · exact le_of_lt (toOrd_lt ha hb hlt)
  · rw [heq]
  · exact absurd hgt h

theorem toOrd_inj {a b : PyDate} (ha : validDate a) (hb : validDate b)
    (h : toOrd a = toOrd b) : a = b := by
  rcases dateLt_trichotomy a b with hlt | heq | hgt
  · exact absurd h (ne_of_lt (toOrd_lt ha hb hlt))
  · exact heq
  · exact absurd h.symm (ne_of_lt (toOrd_lt hb ha hgt))

theorem dateLt_nextDate (d : PyDate) : dateLt d (nextDate d) := by
  unfold nextDate dateLt
  split
  · simp
  · split <;> simp

theorem toOrd_nextDate {d : PyDate} (hv : validDate d) :
    toOrd (nextDate d) = toOrd d + 1 := by
  obtain ⟨hy1, hy2, hm1, hm2, hd1, hd2⟩ := hv
  unfold nextDate toOrd
  split_ifs with h1 h2 <;> dsimp only
  · omega
  · have hstep := dbm_step d.year d.month hm1 (by omega)
    omega
  · have hm12 : d.month = 12 := by omega
    have hlast := dbm_last d.year
    have hsucc := dby_succ d.year
    have hone := dbm_one (d.year + 1)
    rw [hm12] at h1 hd2 ⊢
    omega

theorem validDate_nextDate {d : PyDate} (hv : validDate d)
    (hne : d ≠ ⟨9999, 12, 31⟩) : validDate (nextDate d) := by
  obtain ⟨hy1, hy2, hm1, hm2, hd1, hd2⟩ := hv
  unfold nextDate validDate
  split_ifs with h1 h2 <;> dsimp only
  · exact ⟨hy1, hy2, hm1, hm2, by omega, by omega⟩
  · refine ⟨hy1, hy2, by omega, by omega, by omega, ?_⟩
    have := daysInMonth_pos d.year (d.month + 1)
    omega
  · have hm12 : d.month = 12 := by omega
    have hdim : daysInMonth d.year 12 = 31 := by norm_num [daysInMonth]
    rw [hm12] at h1 hd2
    have hd31 : d.day = 31 := by omega
    have hy : d.year ≠ 9999 := by
      intro hcon
      exact hne (by rcases d with ⟨a, b, c⟩; simp_all)
    refine ⟨by omega, by omega, by omega, by omega, by omega, ?_⟩
    have := daysInMonth_pos (d.year + 1) 1
    omega

theorem toOrd_le_max {d : PyDate} (hv : validDate d) :
    toOrd d ≤ toOrd ⟨9999, 12, 31⟩ := by
  apply toOrd_le hv (by norm_num [validDate, daysInMonth, isLeap])
  obtain ⟨hy1, hy2, hm1, hm2, hd1, hd2⟩ := hv
  unfold dateLt
  dsimp only
  intro hcon
  rcases hcon with h | ⟨h, hm | ⟨hm, hd⟩⟩
  · omega
  · omega
  · rw [← h, ← hm] at hd2
    norm_num [daysInMonth] at hd2
    omega

theorem dailyWalk_props : ∀ (n : Nat) (start stop : PyDate),
    validDate start → validDate stop → toOrd stop = toOrd start + n →
    (dailyWalk n start stop).Chain' (fun a b => b = nextDate a)
    ∧ (∀ d ∈ dailyWalk n start stop, validDate d)
    ∧ (dailyWalk n start stop).length = n
    ∧ (dailyWalk n start stop).head? = (if n = 0 then none else some start)
    ∧ (∀ lastD, (dailyWalk n start stop).getLast? = some lastD →
        nextDate lastD = stop) := by
  intro n
  induction n with
  | zero =>
      intro start stop hvs hvstop hord
      refine ⟨by simp [dailyWalk], by simp [dailyWalk], by simp [dailyWalk],
        by simp [dailyWalk], by simp [dailyWalk]⟩
  | succ k ih =>
      intro start stop hvs hvstop hord
      have hne : start ≠ stop := by
        intro hcon
        rw [hcon] at hord
        omega
      have hsmax : start ≠ ⟨9999, 12, 31⟩ := by
        intro hcon
        have h1 := toOrd_le_max hvstop
        rw [hcon] at hord
        omega
      have hvnext := validDate_nextDate hvs hsmax
      have hordnext : toOrd stop = toOrd (nextDate start) + k := by
        rw [toOrd_nextDate hvs]
        push_cast at hord ⊢
        omega
      obtain ⟨ihc, ihv, ihl, ihh, ihlast⟩ :=
        ih (nextDate start) stop hvnext hvstop hordnext
      have hwalk : dailyWalk (k + 1) start stop =
          start :: dailyWalk k (nextDate start) stop := by
        rw [dailyWalk, if_neg hne]
      refine ⟨?_, ?_, ?_, ?_, ?_⟩
      · rw [hwalk, List.chain'_cons']
        refine ⟨?_, ihc⟩
        intro h hh
        rw [ihh] at hh
        by_cases hk : k = 0
        · rw [hk] at hh; simp at hh
        · rw [if_neg hk] at hh
          simp at hh
          rw [hh]
      · rw [hwalk]
        intro d hd
        rcases List.mem_cons.mp hd with rfl | hd
        · exact hvs
        · exact ihv d hd
      · rw [hwalk]; simp [ihl]
      · rw [hwalk]; simp
      · rw [hwalk]
        intro lastD hlast
        by_cases hk : k = 0
        · have hnil : dailyWalk k (nextDate start) stop = [] := by
            rw [hk]; rfl
          rw [hnil] at hlast
          simp at hlast
          have hstopval : toOrd (nextDate start) = toOrd stop := by
            rw [toOrd_nextDate hvs]; omega
          rw [← hlast]
          exact toOrd_inj hvnext hvstop hstopval
        · have hnonempty : dailyWalk k (nextDate start) stop ≠ [] := by
            intro hcon
            have hl2 := ihl
            rw [hcon] at hl2
            simp at hl2
            omega
          cases hl : dailyWalk k (nextDate start) stop with
          | nil => exact absurd hl hnonempty
          | cons b t =>
              rw [hl, List.getLast?_cons_cons] at hlast
              apply ihlast
              rw [hl]
              exact hlast

/-- Chronological strict order on RequestDate values (absent month or day
components compare as 0, which is below every real component value). -/
def rdLt (a b : RequestDate) : Prop :=
  a.year < b.year ∨ (a.year = b.year ∧
    (a.month.getD 0 < b.month.getD 0 ∨
      (a.month.getD 0 = b.month.getD 0 ∧ a.day.getD 0 < b.day.getD 0)))

instance : IsTrans RequestDate rdLt :=
  ⟨by
    intro a b c hab hbc
    unfold rdLt at hab hbc ⊢
    omega⟩

theorem fdiv12 (a : Int) : a.fdiv 12 = a / 12 := Int.fdiv_eq_ediv a (by norm_num)

theorem fmod12 (a : Int) : a.fmod 12 = a % 12 := Int.fmod_eq_emod a (by norm_num)

/-- Strict chronological order on year and month pairs. -/
def monthPairLt (p q : Int × Int) : Prop :=
  p.1 < q.1 ∨ (p.1 = q.1 ∧ p.2 < q.2)

instance : IsTrans (Int × Int) monthPairLt :=
  ⟨by
    intro a b c hab hbc
    unfold monthPairLt at hab hbc ⊢
    omega⟩

theorem monthlyWalk_props (sy ey em : Int) : ∀ (fuel : Nat) (mcnt : Int),
    List.Chain' monthPairLt
      (monthlyWalk sy ey em fuel (sy + mcnt / 12) (mcnt % 12 + 1) mcnt)
    ∧ (monthlyWalk sy ey em fuel (sy + mcnt / 12) (mcnt % 12 + 1) mcnt).head? =
        (if fuel ≠ 0 ∧ (sy + mcnt / 12) * 12 + (mcnt % 12 + 1) ≤ ey * 12 + em
         then some (sy + mcnt / 12, mcnt % 12 + 1) else none) := by
  intro fuel
  induction fuel with
  | zero => intro mcnt; refine ⟨by simp [monthlyWalk], by simp [monthlyWalk]⟩
  | succ k ih =>
      intro mcnt
      rw [monthlyWalk]
      by_cases hcond :
          (sy + mcnt / 12) * 12 + (mcnt % 12 + 1) ≤ ey * 12 + em
      · rw [if_pos hcond]
        have hrec := ih (mcnt + 1)
        rw [fdiv12, fmod12]
        refine ⟨?_, by simp [hcond]⟩
        rw [List.chain'_cons']
        refine ⟨?_, hrec.1⟩
        intro q hq
        rw [hrec.2] at hq
        split_ifs at hq with hq2
        · simp only [Option.mem_def, Option.some.injEq] at hq
          rw [← hq]
          unfold monthPairLt
          dsimp only
          omega
        · simp at hq
      · rw [if_neg hcond]
        refine ⟨by simp, by simp [hcond]⟩

theorem fdiv1 (a : Int) : a.fdiv 1 = a := by
  rw [Int.fdiv_eq_ediv a (by norm_num), Int.ediv_one]

/-- The annual branch, when it succeeds, yields a nonempty strictly
chronological list of year-only dates with grain ANNUAL. -/
theorem annualBranch_ok {ds de : List Char} {dates : List RequestDate}
    {g : Nat} (h : annualBranch ds de = .ok (dates, g)) :
    dates ≠ [] ∧ g = ANNUAL ∧ dates.Pairwise rdLt := by
  unfold annualBranch at h
  cases hs : pyInt ds with
  | error e => rw [hs] at h; simp at h
  | ok s =>
      cases he : pyInt de with
      | error e => rw [hs, he] at h; simp at h
      | ok e =>
          rw [hs, he] at h
          simp only [ok_bind] at h
          split_ifs at h with hord
          simp only [pure_eq_ok, Except.ok.injEq, Prod.mk.injEq] at h
          obtain ⟨hd, hg⟩ := h
          refine ⟨?_, hg.symm, ?_⟩
          · rw [← hd]
            simp only [ne_eq, List.map_eq_nil_iff, pyRangeList,
              List.range_eq_nil]
            simp only [pyRangeLen, if_pos (by norm_num : (0:Int) < 1)]
            intro hcon
            rw [show e + 1 - s + 1 - 1 = e + 1 - s by ring, fdiv1] at hcon
            omega
          · rw [← hd, List.pairwise_map]
            refine (pyRangeList_pairwise s (e + 1) 1 one_pos).imp ?_
            intro x y hxy
            unfold rdLt
            dsimp only
            omega

/-- The monthly branch, when it succeeds, yields a nonempty strictly
chronological list of year-month dates with grain MONTHLY. -/
theorem monthlyBranch_ok {ds de : List Char} {dates : List RequestDate}
    {g : Nat} (h : monthlyBranch ds de = .ok (dates, g)) :
    dates ≠ [] ∧ g = MONTHLY ∧ dates.Pairwise rdLt := by
  unfold monthlyBranch at h
  cases hs : pyIntList (pySplit '-' ds) with
  | error e => simp [hs] at h
  | ok sParts =>
      rw [hs] at h
      simp only [ok_bind] at h
      cases hsu : unpack2 sParts with
      | error e => simp [hsu] at h
      | ok sp =>
          obtain ⟨sy, sm⟩ := sp
          rw [hsu] at h
          simp only [ok_bind] at h
          cases he : pyIntList (pySplit '-' de) with
          | error e => simp [he] at h
          | ok eParts =>
              rw [he] at h
              simp only [ok_bind] at h
              cases heu : unpack2 eParts with
              | error e => simp [heu] at h
              | ok ep =>
                  obtain ⟨ey, em⟩ := ep
                  rw [heu] at h
                  simp only [ok_bind] at h
                  split_ifs at h with hsm hem hord
                  simp only [pure_eq_ok, Except.ok.injEq, Prod.mk.injEq] at h
                  obtain ⟨hd, hg⟩ := h
                  have hprops := monthlyWalk_props sy ey em
                    (monthlyFuel sy sm ey em) (sm - 1)
                  have hdv : sy + (sm - 1) / 12 = sy := by omega
                  have hmv : (sm - 1) % 12 + 1 = sm := by omega
                  rw [hdv, hmv] at hprops
                  refine ⟨?_, hg.symm, ?_⟩
                  · rw [← hd]
                    simp only [ne_eq, List.map_eq_nil_iff]
                    intro hcon
                    have hh := hprops.2
                    rw [hcon] at hh
                    simp only [List.head?_nil] at hh
                    have hfuel : monthlyFuel sy sm ey em ≠ 0 := by
                      unfold monthlyFuel
                      omega
                    rw [if_pos ⟨hfuel, by omega⟩] at hh
                    exact Option.noConfusion hh
                  · rw [← hd, List.pairwise_map]
                    refine (List.chain'_iff_pairwise.mp hprops.1).imp ?_
                    intro p q hpq
                    unfold monthPairLt at hpq
                    unfold rdLt
                    simp only [Option.getD_some]
                    omega

theorem unpack2_ok {l : List Int} {a b : Int}
    (h : unpack2 l = .ok (a, b)) : l = [a, b] := by
  match l with
  | [] => simp [unpack2] at h
  | [x] => simp [unpack2] at h
  | [x, y] =>
      simp only [unpack2, Except.ok.injEq, Prod.mk.injEq] at h
      rw [h.1, h.2]
  | x :: y :: z :: t => simp [unpack2] at h

theorem unpack3_ok {l : List Int} {a b c : Int}
    (h : unpack3 l = .ok (a, b, c)) : l = [a, b, c] := by
  match l with
  | [] => simp [unpack3] at h
  | [x] => simp [unpack3] at h
  | [x, y] => simp [unpack3] at h
  | [x, y, z] =>
      simp only [unpack3, Except.ok.injEq, Prod.mk.injEq] at h
      rw [h.1, h.2.1, h.2.2]
  | x :: y :: z :: w :: t => simp [unpack3] at h

theorem mkPyDate_ok {y m d : Int} {p : PyDate}
    (h : mkPyDate y m d = .ok p) : p = ⟨y, m, d⟩ ∧ validDate ⟨y, m, d⟩ := by
  unfold mkPyDate at h
  split_ifs at h with hv
  simp only [Except.ok.injEq] at h
  exact ⟨h.symm, hv⟩

theorem pyDateSucc_ok {d p : PyDate} (h : pyDateSucc d = .ok p) :
    d ≠ ⟨9999, 12, 31⟩ ∧ p = nextDate d := by
  unfold pyDateSucc at h
  split_ifs at h with hv
  simp only [Except.ok.injEq] at h
  exact ⟨hv, h.symm⟩

theorem rdLt_of_nextDate (a : PyDate) :
    rdLt (dayToRD a) (dayToRD (nextDate a)) := by
  have h := dateLt_nextDate a
  unfold dateLt at h
  unfold rdLt dayToRD
  simp only [Option.getD_some]
  omega

/-- Shared daily-branch analysis: with successfully parsed components,
valid ordered dates and an end date below date.max, the branch succeeds
and returns the full calendar walk from start to end. -/
theorem dailyBranch_full {ds de : List Char} {sy sm sd ey em ed : Int}
    (hpds : pyIntList (pySplit '-' ds) = .ok [sy, sm, sd])
    (hpde : pyIntList (pySplit '-' de) = .ok [ey, em, ed])
    (hvs : validDate ⟨sy, sm, sd⟩) (hve : validDate ⟨ey, em, ed⟩)
    (hlt : ¬ dateLt ⟨ey, em, ed⟩ ⟨sy, sm, sd⟩)
    (hne : (⟨ey, em, ed⟩ : PyDate) ≠ ⟨9999, 12, 31⟩) :
    ∃ w : List PyDate,
      dailyBranch ds de = .ok (w.map dayToRD, DAILY)
      ∧ w ≠ []
      ∧ w.head? = some ⟨sy, sm, sd⟩
      ∧ w.getLast? = some ⟨ey, em, ed⟩
      ∧ w.Chain' (fun a b => b = nextDate a)
      ∧ ∀ d ∈ w, validDate d := by
  have hred : dailyBranch ds de =
      .ok ((dailyWalk
        (dailyFuel ⟨sy, sm, sd⟩ (nextDate ⟨ey, em, ed⟩)) ⟨sy, sm, sd⟩
        (nextDate ⟨ey, em, ed⟩)).map dayToRD, DAILY) := by
    unfold dailyBranch
    rw [hpds]
    simp only [ok_bind, unpack3]
    rw [hpde]
    simp only [ok_bind, unpack3]
    unfold mkPyDate
    rw [if_pos hvs, if_pos hve]
    simp only [ok_bind]
    rw [if_neg hlt]
    unfold pyDateSucc
    rw [if_neg hne]
    simp only [ok_bind, pure_eq_ok]
  have hvstop : validDate (nextDate ⟨ey, em, ed⟩) := validDate_nextDate hve hne
  have hordle : toOrd ⟨sy, sm, sd⟩ ≤ toOrd ⟨ey, em, ed⟩ := toOrd_le hvs hve hlt
  have hordstop : toOrd (nextDate ⟨ey, em, ed⟩) = toOrd ⟨ey, em, ed⟩ + 1 :=
    toOrd_nextDate hve
  have hfuel : (dailyFuel ⟨sy, sm, sd⟩ (nextDate ⟨ey, em, ed⟩) : Int) =
      toOrd (nextDate ⟨ey, em, ed⟩) - toOrd ⟨sy, sm, sd⟩ := by
    unfold dailyFuel
    rw [Int.toNat_of_nonneg (by omega)]
  have hord : toOrd (nextDate ⟨ey, em, ed⟩) = toOrd ⟨sy, sm, sd⟩ +
      (dailyFuel ⟨sy, sm, sd⟩ (nextDate ⟨ey, em, ed⟩) : Int) := by omega
  obtain ⟨hchain, hvalid, hlen, hhead, hlast⟩ :=
    dailyWalk_props (dailyFuel ⟨sy, sm, sd⟩ (nextDate ⟨ey, em, ed⟩))
      ⟨sy, sm, sd⟩ (nextDate ⟨ey, em, ed⟩) hvs hvstop hord
  have hfne : dailyFuel ⟨sy, sm, sd⟩ (nextDate ⟨ey, em, ed⟩) ≠ 0 := by omega
  have hnonempty : dailyWalk (dailyFuel ⟨sy, sm, sd⟩ (nextDate ⟨ey, em, ed⟩))
      ⟨sy, sm, sd⟩ (nextDate ⟨ey, em, ed⟩) ≠ [] := by
    intro hcon
    rw [hcon] at hlen
    simp at hlen
    omega
  refine ⟨dailyWalk (dailyFuel ⟨sy, sm, sd⟩ (nextDate ⟨ey, em, ed⟩))
    ⟨sy, sm, sd⟩ (nextDate ⟨ey, em, ed⟩), hred, hnonempty, ?_, ?_, hchain, hvalid⟩
  · rw [hhead, if_neg hfne]
  · obtain ⟨lastD, hgl⟩ :=
      Option.isSome_iff_exists.mp (List.getLast?_isSome.mpr hnonempty)
    have hnl := hlast lastD hgl
    have hlv : validDate lastD := hvalid lastD (List.mem_of_getLast?_eq_some hgl)
    have hordlast : toOrd lastD = toOrd ⟨ey, em, ed⟩ := by
      have h1 := toOrd_nextDate hlv
      rw [hnl] at h1
      omega
    rw [hgl, toOrd_inj hlv hve hordlast]

/-- The daily branch, when it succeeds, yields a nonempty strictly
chronological list of full dates with grain DAILY. -/
theorem dailyBranch_ok {ds de : List Char} {dates : List RequestDate}
    {g : Nat} (h : dailyBranch ds de = .ok (dates, g)) :
    dates ≠ [] ∧ g = DAILY ∧ dates.Pairwise rdLt := by
  unfold dailyBranch at h
  cases hs : pyIntList (pySplit '-' ds) with
  | error e => simp [hs] at h
  | ok sParts =>
      rw [hs] at h
      simp only [ok_bind] at h
      cases hsu : unpack3 sParts with
      | error e => simp [hsu] at h
      | ok sp =>
          obtain ⟨sy, sm, sd⟩ := sp
          rw [hsu] at h
          simp only [ok_bind] at h
          cases he : pyIntList (pySplit '-' de) with
          | error e => simp [he] at h
          | ok eParts =>
              rw [he] at h
              simp only [ok_bind] at h
              cases heu : unpack3 eParts with
              | error e => simp [heu] at h
              | ok ep =>
                  obtain ⟨ey, em, ed⟩ := ep
                  rw [heu] at h
                  simp only [ok_bind] at h
                  cases hmk1 : mkPyDate sy sm sd with
                  | error e => simp [hmk1] at h
                  | ok startD =>
                      rw [hmk1] at h
                      simp only [ok_bind] at h
                      cases hmk2 : mkPyDate ey em ed with
                      | error e => simp [hmk2] at h
                      | ok endD =>
                          rw [hmk2] at h
                          simp only [ok_bind] at h
                          obtain ⟨rfl, hvs⟩ := mkPyDate_ok hmk1
                          obtain ⟨rfl, hve⟩ := mkPyDate_ok hmk2
                          split_ifs at h with hlt
                          cases hsucc : pyDateSucc ⟨ey, em, ed⟩ with
                          | error e => simp [hsucc] at h
                          | ok stop =>
                              rw [hsucc] at h
                              simp only [ok_bind, pure_eq_ok,
                                Except.ok.injEq, Prod.mk.injEq] at h
                              obtain ⟨hne, rfl⟩ := pyDateSucc_ok hsucc
                              obtain ⟨hd, hg⟩ := h
                              have hsP : pyIntList (pySplit '-' ds) =
                                  .ok [sy, sm, sd] := by
                                rw [hs, unpack3_ok hsu]
                              have heP : pyIntList (pySplit '-' de) =
                                  .ok [ey, em, ed] := by
                                rw [he, unpack3_ok heu]
                              obtain ⟨w, hred, hwne, hhead, hlastw, hchain,
                                hvalid⟩ :=
                                dailyBranch_full hsP heP hvs hve hlt hne
                              have hdw : w.map dayToRD = dates := by
                                have h2 : dailyBranch ds de =
                                    .ok (dates, g) := by
                                  unfold dailyBranch
                                  rw [hsP]
                                  simp only [ok_bind, unpack3]
                                  rw [heP]
                                  simp only [ok_bind, unpack3]
                                  unfold mkPyDate
                                  rw [if_pos hvs, if_pos hve]
                                  simp only [ok_bind]
                                  rw [if_neg hlt]
                                  unfold pyDateSucc
                                  rw [if_neg hne]
                                  simp only [ok_bind, pure_eq_ok]
                                  rw [← hd, hg]
                                rw [hred] at h2
                                simp only [Except.ok.injEq,
                                  Prod.mk.injEq] at h2
                                exact h2.1
                              refine ⟨?_, hg.symm, ?_⟩
                              · rw [← hdw]
                                simp only [ne_eq, List.map_eq_nil_iff]
                                exact hwne
                              · rw [← hdw]
                                apply List.chain'_iff_pairwise.mp
                                rw [List.chain'_map]
                                refine hchain.imp ?_
                                intro a b hab
                                rw [hab]
                                exact rdLt_of_nextDate a

/-- Any successful simple date range is nonempty, has one of the three
real grains, and is strictly chronological. -/
theorem parseSimpleDateRange_ok {ds de : Option (List Char)}
    {dates : List RequestDate} {g : Nat}
    (h : parseSimpleDateRange ds de = .ok (dates, g)) :
    dates ≠ [] ∧ (g = ANNUAL ∨ g = MONTHLY ∨ g = DAILY) ∧
      dates.Pairwise rdLt := by
  unfold parseSimpleDateRange at h
  dsimp only at h
  split_ifs at h with h0 h4 h7 h10
  · obtain ⟨ha, hb, hc⟩ := annualBranch_ok h
    exact ⟨ha, Or.inl hb, hc⟩
  · obtain ⟨ha, hb, hc⟩ := monthlyBranch_ok h
    exact ⟨ha, Or.inr (Or.inl hb), hc⟩
  · obtain ⟨ha, hb, hc⟩ := dailyBranch_ok h
    exact ⟨ha, Or.inr (Or.inr hb), hc⟩

/-- C6: every date selection produced by a returning path of date parsing
has an empty date list exactly when its grain is NONE, its dates are
strictly chronological without duplicates, and the all-inputs-absent case
returns grain NONE with an empty list rather than an error. -/
theorem claim_c6 :
    (∀ (date_start date_end years months days : Option (List Char))
        (dates : List RequestDate) (g : Nat),
        parseDates date_start date_end years months days = .ok (dates, g) →
        (dates = [] ↔ g = NONE) ∧ dates.Pairwise rdLt)
    ∧ parseDates none none none none none = .ok ([], NONE) := by
  refine ⟨?_, rfl⟩
  intro ds de ys ms dys dates g h
  unfold parseDates at h
  split_ifs at h with hempty hsimple
  · simp only [Except.ok.injEq, Prod.mk.injEq] at h
    obtain ⟨hd, hg⟩ := h
    rw [← hd, ← hg]
    exact ⟨by simp, List.Pairwise.nil⟩
  · obtain ⟨hne, hg, hp⟩ := parseSimpleDateRange_ok h
    have hgne : g ≠ NONE := by
      rcases hg with rfl | rfl | rfl <;> simp [ANNUAL, MONTHLY, DAILY, NONE]
    exact ⟨⟨fun hc => absurd hc hne, fun hc => absurd hc hgne⟩, hp⟩
  · unfold parseYMD at h
    split_ifs at h <;> simp at h

/-- Witness for C6: the invariant instantiated on the concrete request
2020 to 2021, which parses to two annual dates. -/
theorem claim_c6_witness :
    (([⟨2020, none, none⟩, ⟨2021, none, none⟩] : List RequestDate) = [] ↔
      ANNUAL = NONE)
    ∧ ([⟨2020, none, none⟩, ⟨2021, none, none⟩] :
        List RequestDate).Pairwise rdLt :=
  claim_c6.1 (some "2020".data) (some "2021".data) none none none _ _ rfl

/-- C5 (amended): for daily-shaped date strings denoting valid calendar
dates, an end date strictly before the start date makes the simple-range
parser raise the end-before-start error; otherwise, provided the end is
strictly before the maximum representable date 9999-12-31, the parser
returns exactly the calendar walk from start to end inclusive: a nonempty
list starting at the start date, ending at the end date, where each entry
is the calendar successor of the previous one, and every entry is a valid
calendar date. -/
theorem claim_c5 {ds de : List Char} {sy sm sd ey em ed : Int}
    (hlds : ds.length = 10) (hlde : de.length = 10)
    (hpds : pyIntList (pySplit '-' ds) = .ok [sy, sm, sd])
    (hpde : pyIntList (pySplit '-' de) = .ok [ey, em, ed])
    (hvs : validDate ⟨sy, sm, sd⟩) (hve : validDate ⟨ey, em, ed⟩) :
    (dateLt ⟨ey, em, ed⟩ ⟨sy, sm, sd⟩ →
      parseSimpleDateRange (some ds) (some de) = .error .endBeforeStart)
    ∧ (¬ dateLt ⟨ey, em, ed⟩ ⟨sy, sm, sd⟩ →
      (⟨ey, em, ed⟩ : PyDate) ≠ ⟨9999, 12, 31⟩ →
      ∃ w : List PyDate,
        parseSimpleDateRange (some ds) (some de) = .ok (w.map dayToRD, DAILY)
        ∧ w ≠ []
        ∧ w.head? = some ⟨sy, sm, sd⟩
        ∧ w.getLast? = some ⟨ey, em, ed⟩
        ∧ w.Chain' (fun a b => b = nextDate a)
        ∧ ∀ d ∈ w, validDate d) := by
  have hdne : ds ≠ [] := by
    intro hcon; rw [hcon] at hlds; simp at hlds
  have hdne2 : de ≠ [] := by
    intro hcon; rw [hcon] at hlde; simp at hlde
  have hdisp : parseSimpleDateRange (some ds) (some de) =
      dailyBranch ds de := by
    unfold parseSimpleDateRange
    simp only [Option.getD_some]
    rw [if_neg (by simp [hdne, hdne2]), if_neg (by simp [hlds]),
      if_neg (by simp [hlds]), if_pos ⟨hlds, hlde⟩]
  constructor
  · intro hltlt
    rw [hdisp]
    unfold dailyBranch
    rw [hpds]
    simp only [ok_bind, unpack3]
    rw [hpde]
    simp only [ok_bind, unpack3]
    unfold mkPyDate
    rw [if_pos hvs, if_pos hve]
    simp only [ok_bind]
    rw [if_pos hltlt]
  · intro hlt hne
    rw [hdisp]
    exact dailyBranch_full hpds hpde hvs hve hlt hne

/-- Witness for C5: the reversed pair 2020-03-01 to 2020-02-27 raises the
end-before-start error, and the concrete range 2020-02-27 to 2020-03-01
crossing the leap year month boundary yields the four-day walk. -/
theorem claim_c5_witness :
    parseSimpleDateRange (some "2020-03-01".data) (some "2020-02-27".data) =
      .error .endBeforeStart
    ∧ ∃ w : List PyDate,
      parseSimpleDateRange (some "2020-02-27".data) (some "2020-03-01".data) =
        .ok (w.map dayToRD, DAILY)
      ∧ w ≠ []
      ∧ w.head? = some ⟨2020, 2, 27⟩
      ∧ w.getLast? = some ⟨2020, 3, 1⟩
      ∧ w.Chain' (fun a b => b = nextDate a)
      ∧ ∀ d ∈ w, validDate d :=
  ⟨(@claim_c5 "2020-03-01".data "2020-02-27".data 2020 3 1 2020 2 27
      rfl rfl rfl rfl (by decide) (by decide)).1 (by decide),
   (@claim_c5 "2020-02-27".data "2020-03-01".data 2020 2 27 2020 3 1
      rfl rfl rfl rfl (by decide) (by decide)).2 (by decide) (by decide)⟩

/-- Counterexample for C5 as frozen: 9999-12-31 is a valid calendar date
and the pair (9999-12-31, 9999-12-31) satisfies end at or after start, but
the parser raises OverflowError (from end_date += timedelta(days=1))
instead of returning the one-day sequence. -/
theorem claim_c5_counterexample :
    validDate ⟨9999, 12, 31⟩
    ∧ ¬ dateLt (⟨9999, 12, 31⟩ : PyDate) ⟨9999, 12, 31⟩
    ∧ parseSimpleDateRange (some "9999-12-31".data)
        (some "9999-12-31".data) = .error .dateOverflow :=
  ⟨by decide, by decide, rfl⟩

/-- C1 (code bug evidence): every request that takes the combinatorial
years/months/days path raises an error instead of producing dates, because
_parseYMD calls the nonexistent method _parseDateRange; shown here at the
specified input years=2019-2020, days=365-366, and also at a years-with-
months input. -/
theorem claim_c1 :
    parseDates none none (some "2019-2020".data) none
        (some "365-366".data) = .error (.attrErr "_parseDateRange")
    ∧ parseDates none none (some "2020".data) (some "1-12".data) none =
        .error (.attrErr "_parseDateRange") := ⟨rfl, rfl⟩

example : parseSimpleDateRange (some "2020".data) (some "2021".data) =
    .ok ([⟨2020, none, none⟩, ⟨2021, none, none⟩], ANNUAL) := rfl
example : parseSimpleDateRange (some "2020-11".data) (some "2021-02".data) =
    .ok ([⟨2020, some 11, none⟩, ⟨2020, some 12, none⟩, ⟨2021, some 1, none⟩,
          ⟨2021, some 2, none⟩], MONTHLY) := rfl
example : parseSimpleDateRange (some "2020-02-27".data) (some "2020-03-01".data) =
    .ok ([⟨2020, some 2, some 27⟩, ⟨2020, some 2, some 28⟩,
          ⟨2020, some 2, some 29⟩, ⟨2020, some 3, some 1⟩], DAILY) := rfl
example : parseSimpleDateRange (some "2020".data) (some "2021-02".data) =
    .error .mismatchedGrain := rfl
example : parseSimpleDateRange (some "9999-12-31".data) (some "9999-12-31".data) =
    .error .dateOverflow := rfl
example : parseDates none none (some "2019-2020".data) none
    (some "365-366".data) = .error (.attrErr "_parseDateRange") := rfl

-- =====================================================================
-- DataRequest construction (data_request.py lines 45-193)
-- =====================================================================

/-- Valid resampling algorithms (data_request.py lines 20-23). -/
def RESAMPLE_METHODS : List String :=
  ["nearest", "bilinear", "cubic", "cubic-spline", "lanczos", "average",
   "mode"]

/-- Valid point interpolation algorithms (data_request.py line 24). -/
def POINT_METHODS : List String := ["nearest", "linear"]

/-- Supported strings for handling mixed date grains (line 27). -/
def GRAIN_METHODS : List String := ["strict", "skip", "coarser", "finer", "any"]

/-- Supported raster output formats (line 30). -/
def GRID_OUTPUT : List String := ["geotiff", "netcdf"]

/-- Supported point output formats (line 31). -/
def POINT_OUTPUT : List String := ["csv", "shapefile", "netcdf"]

/-- The format to file extension dict FILE_EXT (lines 32-37); lookup of a
missing key raises KeyError, so the result is an Option. -/
def FILE_EXT (f : String) : Option String :=
  if f = "geotiff" then some ".tif"
  else if f = "netcdf" then some ".nc"
  else if f = "csv" then some ".csv"
  else if f = "shapefile" then some ".shp"
  else none

/-- Modelled from the spec: the subset geometry classes (the subset_geom
module is not among the sources).  A subset geometry is polymorphic over
polygon and multipoint, and the POINT validity check in DataRequest is
isinstance(subset_geom, SubsetMultiPoint). -/
inductive SubsetGeom where
  | polygon
  | multiPoint
deriving DecidableEq, Repr

/-- Modelled from the spec: a catalog entry for one dataset (the
DatasetCatalog class is not among the sources).  DataRequest uses exactly a
nontemporal flag, a supported-grain set and a metadata document per
dataset; the metadata document is carried as an opaque string. -/
structure GSDataSetEntry where
  nontemporal : Bool
  supported_grains : List Nat
  mdDoc : String
deriving DecidableEq, Repr

/-- The catalog as an insertion-ordered mapping from dataset id. -/
def Catalog : Type := List (String × GSDataSetEntry)

/-- The dict lookup self.dsc[dsid]; a missing key raises KeyError. -/
def catLookup (dsc : Catalog) (dsid : String) : Except PyErr GSDataSetEntry :=
  match List.lookup dsid dsc with
  | some e => .ok e
  | none => .error (.keyErr dsid)

/-- Modelled from the spec: getCRSMetadata (library/datasets/gsdataset.py
is not among the sources).  The CRS is an opaque identifier with a
metadata-extraction function, so the embedding carries it through. -/
def getCRSMetadata (crs : String) : String := crs

/-- Per-dataset metadata entry assembled by _getMetadata: the catalog
document of the dataset with the requested variables appended. -/
structure DsMd where
  mdDoc : String
  requested_vars : List String
deriving DecidableEq, Repr

/-- The request metadata document assembled by _getMetadata (lines
158-183). -/
structure RequestMd where
  req_vals : List (String × String)
  target_date_range : Option (List Char) × Option (List Char)
  target_crs : String
  request_type_str : String
  target_resolution : Option Int
  ri_method : String
  datasets : List DsMd
deriving DecidableEq, Repr

/-- The dataset loop of _getMetadata (lines 175-179): one catalog lookup
per requested dataset, in mapping order; a missing id raises KeyError. -/
def dsMetadataList (dsc : Catalog) :
    List (String × List String) → Except PyErr (List DsMd)
  | [] => .ok []
  | (dsid, dsvs) :: rest => do
      let e ← catLookup dsc dsid
      let tail ← dsMetadataList dsc rest
      pure ({ mdDoc := e.mdDoc, requested_vars := dsvs } :: tail)

/-- DataRequest._getMetadata (data_request.py lines 158-183). -/
def getMetadataDoc (dsc : Catalog) (dsvars : List (String × List String))
    (date_start_raw date_end_raw : Option (List Char)) (target_crs : String)
    (target_resolution : Option Int) (request_type : Int)
    (ri_method : String) (req_vals : List (String × String)) :
    Except PyErr RequestMd := do
  let dsmds ← dsMetadataList dsc dsvars
  pure {
    req_vals := req_vals
    target_date_range := (date_start_raw, date_end_raw)
    target_crs := getCRSMetadata target_crs
    request_type_str :=
      if request_type = REQ_RASTER then "raster" else "points"
    target_resolution :=
      if request_type = REQ_RASTER then target_resolution else none
    ri_method := ri_method
    datasets := dsmds }

/-- The loop of DataRequest._verifyGrains (lines 188-193). -/
def verifyGrainsList (dsc : Catalog) (g : Nat) :
    List (String × List String) → Except PyErr Unit
  | [] => .ok ()
  | (dsid, _) :: rest => do
      let e ← catLookup dsc dsid
      if ¬ e.nontemporal ∧ g ∉ e.supported_grains then
        .error (.grainMismatch dsid)
      else
        verifyGrainsList dsc g rest

/-- DataRequest._verifyGrains (lines 185-193): only the strict policy
checks anything. -/
def verifyGrains (dsc : Catalog) (grain_method : String) (g : Nat)
    (dsvars : List (String × List String)) : Except PyErr Unit :=
  if grain_method = "strict" then verifyGrainsList dsc g dsvars else .ok ()

/-- The validated DataRequest aggregate: the attributes stored by
DataRequest.__init__ (the catalog reference is omitted; target_resolution
is a pass-through value never computed with, carried as an optional
integer stand-in for the float). -/
structure DataRequest where
  dsvars : List (String × List String)
  date_start_raw : Option (List Char)
  date_end_raw : Option (List Char)
  dates : List RequestDate
  date_grain : Nat
  subset_geom : Option SubsetGeom
  target_crs : String
  target_resolution : Option Int
  request_type : Int
  ri_method : String
  metadata : RequestMd
  grain_method : String
  file_extension : String
deriving DecidableEq, Repr

/-- DataRequest.__init__ (data_request.py lines 49-156): the fail-fast
validation pipeline, in source order: date parsing, request type check,
method defaulting and validation, point geometry check, metadata assembly
(catalog lookups), grain policy defaulting and validation, grain
verification, output format defaulting and validation, file extension
lookup. -/
def mkDataRequest (dsc : Catalog) (dsvars : List (String × List String))
    (date_start date_end years months days : Option (List Char))
    (grain_method : Option String) (subset_geom : Option SubsetGeom)
    (target_crs : String) (target_resolution : Option Int)
    (ri_method : Option String) (request_type : Int)
    (output_format : Option String)
    (req_metadata : List (String × String)) : Except PyErr DataRequest := do
  let pd ← parseDates date_start date_end years months days
  if ¬ (request_type = REQ_RASTER ∨ request_type = REQ_POINT) then
    .error .invalidRequestType
  else
    let riMethod := ri_method.getD "nearest"
    if request_type = REQ_RASTER ∧ riMethod ∉ RESAMPLE_METHODS then
      .error (.invalidResample riMethod)
    else if request_type = REQ_POINT ∧ riMethod ∉ POINT_METHODS then
      .error (.invalidPointMethod riMethod)
    else if request_type = REQ_POINT ∧ subset_geom ≠ some .multiPoint then
      .error .noPoints
    else do
      let md ← getMetadataDoc dsc dsvars date_start date_end target_crs
        target_resolution request_type riMethod req_metadata
      let grainMethod := grain_method.getD "strict"
      if grainMethod ∉ GRAIN_METHODS then
        .error (.invalidGrainMethod grainMethod)
      else do
        let _ ← verifyGrains dsc grainMethod pd.2 dsvars
        let outputFormat := output_format.getD
          (if request_type = REQ_RASTER then "geotiff" else "csv")
        if request_type = REQ_RASTER ∧ outputFormat ∉ GRID_OUTPUT then
          .error (.invalidFormat outputFormat)
        else if request_type = REQ_POINT ∧ outputFormat ∉ POINT_OUTPUT then
          .error (.invalidFormat outputFormat)
        else
          match FILE_EXT outputFormat with
          | none => .error (.keyErr outputFormat)
          | some ext =>
              pure {
                dsvars := dsvars
                date_start_raw := date_start
                date_end_raw := date_end
                dates := pd.1
                date_grain := pd.2
                subset_geom := subset_geom
                target_crs := target_crs
                target_resolution := target_resolution
                request_type := request_type
                ri_method := riMethod
                metadata := md
                grain_method := grainMethod
                file_extension := ext }

-- =====================================================================
-- DataRequestOutput (data_request_output.py)
-- =====================================================================

/-- DataRequestOutput.requestDateAsString (data_request_output.py lines
20-38).  The comparisons reference the bare names NONE, ANNUAL, MONTHLY
and DAILY, which are not defined in that module (it imports
api_core.data_request as dr, so the constants exist only as dr.NONE and so
on); the first executed comparison therefore raises NameError. -/
def requestDateAsString (grain : Nat) (rdate : Option RequestDate) :
    Except PyErr (List Char) :=
  .error (.nameErr "NONE")

/-- DataRequestOutput._getSingleLayerOutputFileName (lines 40-52).  It
calls self._requestDateAsString, but the method defined on the class is
named requestDateAsString without the leading underscore, so the call
raises AttributeError. -/
def getSingleLayerOutputFileName (dsid varname : List Char) (grain : Nat)
    (rdate : Option RequestDate) : Except PyErr (List Char) :=
  .error (.attrErr "_requestDateAsString")

/-- DataRequestOutput._writeRasterFiles (lines 121-144), modelling the
file names it produces.  A dataset result is its list of variables, each
with the list of time coordinate values of its gridded stack.  In the .tif
branch the loop body evaluates the undefined local name grain (line 129)
when passing arguments, so the first dataset-variable-timestep iteration
raises NameError; when the iteration space is empty the loop body never
runs and the empty path list is returned.  The .nc branch writes one file
per dataset named by the dataset id. -/
def writeRasterFiles
    (ds_output_dict : List (List Char × List (List Char × List Int)))
    (file_extension : List Char) : Except PyErr (List (List Char)) :=
  if file_extension = ".tif".data then
    if ds_output_dict.any (fun ds => ds.2.any (fun v => ¬ v.2.isEmpty)) then
      .error (.nameErr "grain")
    else
      .ok []
  else if file_extension = ".nc".data then
    .ok (ds_output_dict.map (fun ds => ds.1 ++ file_extension))
  else
    .error .unsupportedRasterFormat

/-- C2 (code bug evidence): with one dataset, one variable and one
timestep, the .tif raster branch raises NameError on the undefined name
grain instead of writing a file named from the dataset, variable and date;
the two naming helpers it would need are themselves broken, raising
AttributeError (no method _requestDateAsString) and NameError (undefined
constant NONE). -/
theorem claim_c2 :
    writeRasterFiles [("prism".data, [("ppt".data, [0])])] ".tif".data =
      .error (.nameErr "grain")
    ∧ requestDateAsString ANNUAL (some ⟨2020, none, none⟩) =
      .error (.nameErr "NONE")
    ∧ getSingleLayerOutputFileName "prism".data "ppt".data ANNUAL
        (some ⟨2020, none, none⟩) = .error (.attrErr "_requestDateAsString")
  := ⟨rfl, rfl, rfl⟩

/-- Field facts about any successfully constructed DataRequest: the
stored request type and method, the validated method sets, and the file
extension drawn from the FILE_EXT table at the resolved output format. -/
theorem bind_error_ne_ok {ε α β : Type} (x : Except ε α) (e : ε)
    (b : β) : (x >>= fun _ => (Except.error e : Except ε β)) ≠ .ok b := by
  cases x <;> simp

set_option maxHeartbeats 2000000 in
/-- Field facts about any successfully constructed DataRequest: the
stored request type and method, the validated method sets, and the file
extension drawn from the FILE_EXT table at the resolved output format. -/
theorem mkDataRequest_ok_fields {dsc : Catalog}
    {dsvars : List (String × List String)}
    {date_start date_end years months days : Option (List Char)}
    {grain_method : Option String} {subset_geom : Option SubsetGeom}
    {target_crs : String} {target_resolution : Option Int}
    {ri_method : Option String} {request_type : Int}
    {output_format : Option String} {req_metadata : List (String × String)}
    {req : DataRequest}
    (h : mkDataRequest dsc dsvars date_start date_end years months days
      grain_method subset_geom target_crs target_resolution ri_method
      request_type output_format req_metadata = .ok req) :
    req.request_type = request_type
    ∧ (request_type = REQ_RASTER ∨ request_type = REQ_POINT)
    ∧ req.ri_method = ri_method.getD "nearest"
    ∧ (request_type = REQ_RASTER → req.ri_method ∈ RESAMPLE_METHODS)
    ∧ (request_type = REQ_POINT → req.ri_method ∈ POINT_METHODS)
    ∧ ∃ fmt, fmt = output_format.getD
          (if request_type = REQ_RASTER then "geotiff" else "csv")
        ∧ FILE_EXT fmt = some req.file_extension := by
  unfold mkDataRequest at h
  set riM := ri_method.getD "nearest" with hriM
  set gmS := grain_method.getD "strict" with hgmS
  set fmtR := output_format.getD
    (if request_type = REQ_RASTER then "geotiff" else "csv") with hfmtR
  cases hpd : parseDates date_start date_end years months days with
  | error e => rw [hpd] at h; exact Except.noConfusion h
  | ok pd =>
      rw [hpd] at h
      simp only [ok_bind] at h
      cases hmd : getMetadataDoc dsc dsvars date_start date_end target_crs
          target_resolution request_type riM req_metadata with
      | error e =>
          rw [hmd] at h
          split_ifs at h <;> exact Except.noConfusion h
      | ok md =>
          rw [hmd] at h
          cases hvg : verifyGrains dsc gmS pd.2 dsvars with
          | error e =>
              rw [hvg] at h
              split_ifs at h <;> exact Except.noConfusion h
          | ok u =>
              rw [hvg] at h
              cases hfe : FILE_EXT fmtR with
              | none =>
                  rw [hfe] at h
                  split_ifs at h <;> exact Except.noConfusion h
              | some ext =>
                  rw [hfe] at h
                  simp only [ok_bind, pure_eq_ok] at h
                  split_ifs at h with h1 h2 h3 h4 h5 h6 h7
                  simp only [Except.ok.injEq] at h
                  subst h
                  refine ⟨rfl, h1, rfl, ?_, ?_, ?_⟩
                  · intro hr
                    by_contra hn
                    exact h2 ⟨hr, hn⟩
                  · intro hr
                    by_contra hn
                    exact h3 ⟨hr, hn⟩
                  · exact ⟨fmtR, hfmtR, by rw [hfe]⟩

/-- C7: for every successfully constructed DataRequest the resolved output
format defaults to geotiff for RASTER and csv for POINT when unspecified,
and the derived file extension is exactly the FILE_EXT table entry of the
resolved output format. -/
theorem claim_c7 (dsc : Catalog) (dsvars : List (String × List String))
    (date_start date_end years months days : Option (List Char))
    (grain_method : Option String) (subset_geom : Option SubsetGeom)
    (target_crs : String) (target_resolution : Option Int)
    (ri_method : Option String) (request_type : Int)
    (output_format : Option String) (req_metadata : List (String × String))
    (req : DataRequest)
    (h : mkDataRequest dsc dsvars date_start date_end years months days
      grain_method subset_geom target_crs target_resolution ri_method
      request_type output_format req_metadata = .ok req) :
    (output_format = none → req.file_extension =
        (if request_type = REQ_RASTER then ".tif" else ".csv"))
    ∧ ∃ fmt, fmt = output_format.getD
          (if request_type = REQ_RASTER then "geotiff" else "csv")
        ∧ FILE_EXT fmt = some req.file_extension := by
  obtain ⟨hrtf, hrt, hm, hmr, hmp, fmt, hfmt, hfe⟩ :=
    mkDataRequest_ok_fields h
  refine ⟨?_, fmt, hfmt, hfe⟩
  intro hnone
  rw [hnone] at hfmt
  rcases hrt with hr | hp
  · rw [if_pos hr]
    rw [if_pos hr] at hfmt
    simp only [Option.getD_none] at hfmt
    rw [hfmt] at hfe
    rw [show FILE_EXT "geotiff" = some ".tif" from rfl] at hfe
    exact (Option.some.inj hfe).symm
  · have hnr : request_type ≠ REQ_RASTER := by
      rw [hp]; unfold REQ_RASTER REQ_POINT; omega
    rw [if_neg hnr]
    rw [if_neg hnr] at hfmt
    simp only [Option.getD_none] at hfmt
    rw [hfmt] at hfe
    rw [show FILE_EXT "csv" = some ".csv" from rfl] at hfe
    exact (Option.some.inj hfe).symm

/-- Witness for C7: a concrete successful RASTER request with no output
format given receives extension .tif from the geotiff default. -/
theorem claim_c7_witness :
    ∃ req : DataRequest,
      mkDataRequest [("prism", ⟨true, [], "m"⟩)] [("prism", ["ppt"])]
        none none none none none none none "c" none none REQ_RASTER none []
        = .ok req
      ∧ ((none : Option String) = none → req.file_extension =
          (if REQ_RASTER = REQ_RASTER then ".tif" else ".csv"))
      ∧ ∃ fmt, fmt = (none : Option String).getD
            (if REQ_RASTER = REQ_RASTER then "geotiff" else "csv")
          ∧ FILE_EXT fmt = some req.file_extension := by
  refine ⟨_, rfl, ?_⟩
  exact claim_c7 [("prism", ⟨true, [], "m"⟩)] [("prism", ["ppt"])]
    none none none none none none none "c" none none REQ_RASTER none [] _ rfl

/-- C8: construction accepts the method string (defaulting to nearest)
only when it lies in the resample set for RASTER or the interpolation set
for POINT, and a RASTER request with method linear never constructs. -/
theorem claim_c8 :
    (∀ (dsc : Catalog) (dsvars : List (String × List String))
        (date_start date_end years months days : Option (List Char))
        (grain_method : Option String) (subset_geom : Option SubsetGeom)
        (target_crs : String) (target_resolution : Option Int)
        (ri_method : Option String) (request_type : Int)
        (output_format : Option String)
        (req_metadata : List (String × String)) (req : DataRequest),
        mkDataRequest dsc dsvars date_start date_end years months days
          grain_method subset_geom target_crs target_resolution ri_method
          request_type output_format req_metadata = .ok req →
        req.ri_method = ri_method.getD "nearest"
        ∧ (req.request_type = REQ_RASTER → req.ri_method ∈ RESAMPLE_METHODS)
        ∧ (req.request_type = REQ_POINT → req.ri_method ∈ POINT_METHODS)
        ∧ (ri_method = none → req.ri_method = "nearest"))
    ∧ (∀ (dsc : Catalog) (dsvars : List (String × List String))
        (date_start date_end years months days : Option (List Char))
        (grain_method : Option String) (subset_geom : Option SubsetGeom)
        (target_crs : String) (target_resolution : Option Int)
        (output_format : Option String)
        (req_metadata : List (String × String)) (req : DataRequest),
        mkDataRequest dsc dsvars date_start date_end years months days
          grain_method subset_geom target_crs target_resolution
          (some "linear") REQ_RASTER output_format req_metadata ≠
          .ok req) := by
  constructor
  · intro dsc dsvars ds de ys ms dy gm geom crs res rim rt fmt md req h
    obtain ⟨hrtf, hrt, hm, hmr, hmp, _⟩ := mkDataRequest_ok_fields h
    refine ⟨hm, ?_, ?_, ?_⟩
    · intro hr
      exact hmr (by rw [← hrtf]; exact hr)
    · intro hp
      exact hmp (by rw [← hrtf]; exact hp)
    · intro hnone
      rw [hm, hnone]
      rfl
  · intro dsc dsvars ds de ys ms dy gm geom crs res fmt md req h
    obtain ⟨hrtf, hrt, hm, hmr, hmp, _⟩ := mkDataRequest_ok_fields h
    have hmem := hmr rfl
    rw [hm] at hmem
    simp only [Option.getD_some] at hmem
    exact absurd hmem (by decide)

/-- Witness for C8: the concrete successful request of the C7 witness with
no method given stores nearest and satisfies the set membership. -/
theorem claim_c8_witness :
    ∃ req : DataRequest,
      mkDataRequest [("prism", ⟨true, [], "m"⟩)] [("prism", ["ppt"])]
        none none none none none none none "c" none none REQ_RASTER none []
        = .ok req
      ∧ req.ri_method = (none : Option String).getD "nearest"
      ∧ (req.request_type = REQ_RASTER → req.ri_method ∈ RESAMPLE_METHODS)
      ∧ (req.request_type = REQ_POINT → req.ri_method ∈ POINT_METHODS)
      ∧ ((none : Option String) = none → req.ri_method = "nearest") := by
  refine ⟨_, rfl, ?_⟩
  exact claim_c8.1 [("prism", ⟨true, [], "m"⟩)] [("prism", ["ppt"])]
    none none none none none none none "c" none none REQ_RASTER none [] _ rfl

/-- The first dataset in mapping order that is temporal and does not
support the requested grain (the dataset the strict check names). -/
def firstOffender (dsc : Catalog) (g : Nat) :
    List (String × List String) → Option String
  | [] => none
  | (dsid, _) :: rest =>
      match List.lookup dsid dsc with
      | none => none
      | some e =>
          if ¬ e.nontemporal ∧ g ∉ e.supported_grains then some dsid
          else firstOffender dsc g rest

theorem firstOffender_cons (dsc : Catalog) (g : Nat) (dsid : String)
    (dsvs : List String) (rest : List (String × List String))
    (e : GSDataSetEntry) (he : List.lookup dsid dsc = some e) :
    firstOffender dsc g ((dsid, dsvs) :: rest) =
      (if ¬ e.nontemporal ∧ g ∉ e.supported_grains then some dsid
       else firstOffender dsc g rest) := by
  simp only [firstOffender, he]

theorem verifyGrainsList_spec (dsc : Catalog) (g : Nat) :
    ∀ l : List (String × List String),
    (∀ p ∈ l, (List.lookup p.1 dsc).isSome) →
    (∀ d, firstOffender dsc g l = some d →
        verifyGrainsList dsc g l = .error (.grainMismatch d))
    ∧ (firstOffender dsc g l = none → verifyGrainsList dsc g l = .ok ()) := by
  intro l
  induction l with
  | nil => intro hcat; exact ⟨fun d hd => by simp [firstOffender] at hd, fun hd => rfl⟩
  | cons p rest ih =>
      intro hcat
      obtain ⟨dsid, dsvs⟩ := p
      have hlook : (List.lookup dsid dsc).isSome :=
        hcat (dsid, dsvs) (List.mem_cons_self _ _)
      obtain ⟨e, he⟩ := Option.isSome_iff_exists.mp hlook
      have hcl : catLookup dsc dsid = .ok e := by
        unfold catLookup
        rw [he]
      have hrest := ih (fun q hq => hcat q (List.mem_cons_of_mem _ hq))
      constructor
      · intro d hd
        rw [firstOffender_cons dsc g dsid dsvs rest e he] at hd
        unfold verifyGrainsList
        rw [hcl]
        simp only [ok_bind]
        split_ifs at hd ⊢ with hoff
        · simp only [Option.some.injEq] at hd
          rw [hd]
        · exact hrest.1 d hd
      · intro hd
        rw [firstOffender_cons dsc g dsid dsvs rest e he] at hd
        unfold verifyGrainsList
        rw [hcl]
        simp only [ok_bind]
        split_ifs at hd ⊢ with hoff
        exact hrest.2 hd

theorem dsMetadataList_ok (dsc : Catalog) :
    ∀ l : List (String × List String),
    (∀ p ∈ l, (List.lookup p.1 dsc).isSome) →
    ∃ mds, dsMetadataList dsc l = .ok mds := by
  intro l
  induction l with
  | nil => intro hcat; exact ⟨[], rfl⟩
  | cons p rest ih =>
      intro hcat
      obtain ⟨dsid, dsvs⟩ := p
      have hlook : (List.lookup dsid dsc).isSome :=
        hcat (dsid, dsvs) (List.mem_cons_self _ _)
      obtain ⟨e, he⟩ := Option.isSome_iff_exists.mp hlook
      have hcl : catLookup dsc dsid = .ok e := by
        unfold catLookup
        rw [he]
      obtain ⟨mds, hmds⟩ := ih (fun q hq => hcat q (List.mem_cons_of_mem _ hq))
      refine ⟨{ mdDoc := e.mdDoc, requested_vars := dsvs } :: mds, ?_⟩
      unfold dsMetadataList
      rw [hcl]
      simp only [ok_bind]
      rw [hmds]
      simp only [ok_bind, pure_eq_ok]

set_option maxHeartbeats 2000000 in
/-- C9: under the strict grain policy (the default), construction fails
with an error naming the first offending dataset whenever some requested
dataset is temporal and its supported-grain set omits the resolved grain,
and when no dataset offends the grain check never fires. -/
theorem claim_c9 (dsc : Catalog) (dsvars : List (String × List String))
    (date_start date_end years months days : Option (List Char))
    (grain_method : Option String) (subset_geom : Option SubsetGeom)
    (target_crs : String) (target_resolution : Option Int)
    (ri_method : Option String) (request_type : Int)
    (output_format : Option String) (req_metadata : List (String × String))
    (dates : List RequestDate) (g : Nat)
    (hdates : parseDates date_start date_end years months days =
      .ok (dates, g))
    (hrt : request_type = REQ_RASTER ∨ request_type = REQ_POINT)
    (hmr : request_type = REQ_RASTER →
      ri_method.getD "nearest" ∈ RESAMPLE_METHODS)
    (hmp : request_type = REQ_POINT →
      ri_method.getD "nearest" ∈ POINT_METHODS)
    (hgeom : request_type = REQ_POINT → subset_geom = some .multiPoint)
    (hcat : ∀ p ∈ dsvars, (List.lookup p.1 dsc).isSome)
    (hgm : grain_method = none ∨ grain_method = some "strict") :
    (∀ d, firstOffender dsc g dsvars = some d →
        mkDataRequest dsc dsvars date_start date_end years months days
          grain_method subset_geom target_crs target_resolution ri_method
          request_type output_format req_metadata =
          .error (.grainMismatch d))
    ∧ (firstOffender dsc g dsvars = none →
        ∀ d, mkDataRequest dsc dsvars date_start date_end years months days
          grain_method subset_geom target_crs target_resolution ri_method
          request_type output_format req_metadata ≠
          .error (.grainMismatch d)) := by
  have hgmv : grain_method.getD "strict" = "strict" := by
    rcases hgm with rfl | rfl <;> rfl
  obtain ⟨mds, hmds⟩ := dsMetadataList_ok dsc dsvars hcat
  have hmd : ∃ md, getMetadataDoc dsc dsvars date_start date_end target_crs
      target_resolution request_type (ri_method.getD "nearest")
      req_metadata = .ok md := by
    unfold getMetadataDoc
    rw [hmds]
    exact ⟨_, rfl⟩
  obtain ⟨md, hmd⟩ := hmd
  have hspec := verifyGrainsList_spec dsc g dsvars hcat
  have hred :
      mkDataRequest dsc dsvars date_start date_end years months days
        grain_method subset_geom target_crs target_resolution ri_method
        request_type output_format req_metadata =
      (verifyGrains dsc (grain_method.getD "strict") (dates, g).2 dsvars >>=
        fun _ =>
        let outputFormat := output_format.getD
          (if request_type = REQ_RASTER then "geotiff" else "csv")
        if request_type = REQ_RASTER ∧ outputFormat ∉ GRID_OUTPUT then
          .error (.invalidFormat outputFormat)
        else if request_type = REQ_POINT ∧ outputFormat ∉ POINT_OUTPUT then
          .error (.invalidFormat outputFormat)
        else
          match FILE_EXT outputFormat with
          | none => .error (.keyErr outputFormat)
          | some ext =>
              pure {
                dsvars := dsvars
                date_start_raw := date_start
                date_end_raw := date_end
                dates := (dates, g).1
                date_grain := (dates, g).2
                subset_geom := subset_geom
                target_crs := target_crs
                target_resolution := target_resolution
                request_type := request_type
                ri_method := ri_method.getD "nearest"
                metadata := md
                grain_method := grain_method.getD "strict"
                file_extension := ext }) := by
    unfold mkDataRequest
    rw [hdates]
    simp only [ok_bind]
    rw [if_neg (not_not_intro hrt)]
    rw [if_neg ?hc2, if_neg ?hc3, if_neg ?hc4]
    case hc2 =>
      rintro ⟨h1, h2⟩
      exact h2 (hmr h1)
    case hc3 =>
      rintro ⟨h1, h2⟩
      exact h2 (hmp h1)
    case hc4 =>
      rintro ⟨h1, h2⟩
      exact h2 (by rw [hgeom h1])
    rw [hmd]
    simp only [ok_bind]
    rw [if_neg (by rw [hgmv]; decide)]
  constructor
  · intro d hd
    rw [hred]
    unfold verifyGrains
    rw [hgmv, if_pos rfl, hspec.1 d hd]
    rfl
  · intro hd d
    rw [hred]
    unfold verifyGrains
    rw [hgmv, if_pos rfl, hspec.2 hd]
    simp only [ok_bind]
    split_ifs <;> intro hcon <;> (try split at hcon) <;> simp at hcon

/-- Witness for C9: a temporal catalog entry supporting only ANNUAL data
rejects a MONTHLY request under the default policy, with the error naming
the dataset. -/
theorem claim_c9_witness :
    mkDataRequest [("prism", ⟨false, [ANNUAL], "m"⟩)] [("prism", ["ppt"])]
      (some "2020-01".data) (some "2020-02".data) none none none
      none none "c" none none REQ_RASTER none [] =
      .error (.grainMismatch "prism") := by
  refine (claim_c9 [("prism", ⟨false, [ANNUAL], "m"⟩)] [("prism", ["ppt"])]
    (some "2020-01".data) (some "2020-02".data) none none none
    none none "c" none none REQ_RASTER none []
    [⟨2020, some 1, none⟩, ⟨2020, some 2, none⟩] MONTHLY
    rfl (Or.inl rfl) (fun _ => by decide) (fun hc => by simp [REQ_RASTER, REQ_POINT] at hc)
    (fun hc => by simp [REQ_RASTER, REQ_POINT] at hc)
    (by decide) (Or.inl rfl)).1 "prism" rfl

-- =====================================================================
-- The legacy DataRequest parser (src/data_request.py)
-- =====================================================================

-- Legacy date granularity constants (src/data_request.py lines 7-9).
def LEGACY_ANNUAL : Nat := 0
def LEGACY_MONTHLY : Nat := 1
def LEGACY_DAILY : Nat := 2

/-- The nested year to month to day-list structure built by the legacy
_parse_dates, as an insertion-ordered dict of dicts (Python 3.7 dicts
preserve insertion order, as the source notes). -/
abbrev LegacyDates : Type := List (Int × List (Int × List Int))

/-- Python dict assignment d[k] = v: replaces in place when the key
exists, appends otherwise. -/
def setKey {α : Type} (l : List (Int × α)) (k : Int) (v : α) :
    List (Int × α) :=
  if (List.lookup k l).isSome then
    l.map (fun p => if p.1 = k then (k, v) else p)
  else
    l ++ [(k, v)]

/-- In-place update of the value stored at an existing key. -/
def dictUpdate {α : Type} (l : List (Int × α)) (k : Int) (f : α → α) :
    List (Int × α) :=
  l.map (fun p => if p.1 = k then (k, f p.2) else p)

/-- The statement "if cur_y not in dates: dates[cur_y] = \x7b\x7d". -/
def dictAddYear (D : LegacyDates) (y : Int) : LegacyDates :=
  if (List.lookup y D).isSome then D else D ++ [(y, [])]

/-- One iteration of the legacy monthly loop body (lines 81-84): ensure
the year key, then assign the empty day list at the month key. -/
def insMonthPair (D : LegacyDates) (p : Int × Int) : LegacyDates :=
  dictUpdate (dictAddYear D p.1) p.1 (fun ms => setKey ms p.2 [])

/-- One iteration of the legacy daily loop body (lines 110-116): ensure
the year key, ensure the month key, append the day. -/
def insDay (D : LegacyDates) (d : PyDate) : LegacyDates :=
  dictUpdate
    (dictUpdate (dictAddYear D d.year) d.year
      (fun ms => if (List.lookup d.month ms).isSome then ms
                 else ms ++ [(d.month, [])]))
    d.year
    (fun ms => ms.map (fun q => if q.1 = d.month then (d.month, q.2 ++ [d.day])
                                else q))

/-- The legacy annual loop (lines 58-59): one dict assignment per year of
the range, in ascending order. -/
def legacyAnnual (date_start date_end : List Char) :
    Except PyErr (LegacyDates × Nat) := do
  let s ← pyInt date_start
  let e ← pyInt date_end
  if e + 1 ≤ s then
    .error .endBeforeStart
  else
    pure ((pyRangeList s (e + 1) 1).foldl (fun D y => setKey D y []) [],
      LEGACY_ANNUAL)

/-- The legacy monthly while loop (lines 77-88): the same iteration as the
monthly walk of the current parser, accumulating into the nested dict. -/
def legacyMonthlyWalk (sy ey em : Int) :
    Nat → Int → Int → Int → LegacyDates → LegacyDates
  | 0, _, _, _, D => D
  | fuel + 1, cy, cm, mcnt, D =>
      if cy * 12 + cm ≤ ey * 12 + em then
        legacyMonthlyWalk sy ey em fuel (sy + (mcnt + 1).fdiv 12)
          ((mcnt + 1).fmod 12 + 1) (mcnt + 1) (insMonthPair D (cy, cm))
      else D

/-- The legacy monthly branch (lines 61-88), with the same validations as
the current parser. -/
def legacyMonthly (date_start date_end : List Char) :
    Except PyErr (LegacyDates × Nat) := do
  let sParts ← pyIntList (pySplit '-' date_start)
  let (sy, sm) ← unpack2 sParts
  let eParts ← pyIntList (pySplit '-' date_end)
  let (ey, em) ← unpack2 eParts
  if sm < 1 ∨ sm > 12 then
    .error (.badMonth sm)
  else if em < 1 ∨ em > 12 then
    .error (.badMonth em)
  else if ey * 12 + em < sy * 12 + sm then
    .error .endBeforeStart
  else
    pure (legacyMonthlyWalk sy ey em (monthlyFuel sy sm ey em) sy sm (sm - 1)
      [], LEGACY_MONTHLY)

/-- The legacy daily while loop (lines 109-118): the same calendar walk as
the current parser, accumulating into the nested dict. -/
def legacyDailyWalk : Nat → PyDate → PyDate → LegacyDates → LegacyDates
  | 0, _, _, D => D
  | fuel + 1, cur, stop, D =>
      if cur = stop then D
      else legacyDailyWalk fuel (nextDate cur) stop (insDay D cur)

/-- The legacy daily branch (lines 90-118), with the same validations and
the same pre-loop end_date increment (hence the same OverflowError at
9999-12-31) as the current parser. -/
def legacyDaily (date_start date_end : List Char) :
    Except PyErr (LegacyDates × Nat) := do
  let sParts ← pyIntList (pySplit '-' date_start)
  let (sy, sm, sd) ← unpack3 sParts
  let eParts ← pyIntList (pySplit '-' date_end)
  let (ey, em, ed) ← unpack3 eParts
  let incDate ← mkPyDate sy sm sd
  let endDate ← mkPyDate ey em ed
  if dateLt endDate incDate then
    .error .endBeforeStart
  else do
    let stop ← pyDateSucc endDate
    pure (legacyDailyWalk (dailyFuel incDate stop) incDate stop [],
      LEGACY_DAILY)

/-- The legacy DataRequest._parse_dates (src/data_request.py lines
36-125). -/
def legacyParseDates (date_start date_end : List Char) :
    Except PyErr (LegacyDates × Nat) :=
  if date_start.length = 4 ∧ date_end.length = 4 then
    legacyAnnual date_start date_end
  else if date_start.length = 7 ∧ date_end.length = 7 then
    legacyMonthly date_start date_end
  else if date_start.length = 10 ∧ date_end.length = 10 then
    legacyDaily date_start date_end
  else
    .error .mismatchedGrain

/-- Flattening of the nested legacy structure in insertion order: a year
with no months denotes the year; a month with no days denotes the month;
otherwise each day is denoted in order. -/
def flattenLegacy (D : LegacyDates) : List RequestDate :=
  D.flatMap (fun p =>
    if p.2.isEmpty then [⟨p.1, none, none⟩]
    else p.2.flatMap (fun q =>
      if q.2.isEmpty then [⟨p.1, some q.1, none⟩]
      else q.2.map (fun d => ⟨p.1, some q.1, some d⟩)))

example : legacyParseDates "2020".data "2021".data =
    .ok ([(2020, []), (2021, [])], LEGACY_ANNUAL) := rfl
example : flattenLegacy [(2020, []), (2021, [])] =
    [⟨2020, none, none⟩, ⟨2021, none, none⟩] := rfl
example : legacyParseDates "2020-11".data "2021-02".data =
    .ok ([(2020, [(11, []), (12, [])]), (2021, [(1, []), (2, [])])],
      LEGACY_MONTHLY) := rfl
example : flattenLegacy [(2020, [(11, []), (12, [])]),
    (2021, [(1, []), (2, [])])] =
    [⟨2020, some 11, none⟩, ⟨2020, some 12, none⟩, ⟨2021, some 1, none⟩,
     ⟨2021, some 2, none⟩] := rfl
example : legacyParseDates "2020-02-27".data "2020-03-01".data =
    .ok ([(2020, [(2, [27, 28, 29]), (3, [1])])], LEGACY_DAILY) := rfl
example : legacyParseDates "9999-12-31".data "9999-12-31".data =
    .error .dateOverflow := rfl
example : legacyParseDates "2020".data "2020-02".data =
    .error .mismatchedGrain := rfl

theorem lookup_none_of_keys_ne {α : Type} {l : List (Int × α)} {k : Int}
    (h : ∀ p ∈ l, p.1 ≠ k) : List.lookup k l = none := by
  induction l with
  | nil => rfl
  | cons p rest ih =>
      rw [List.lookup]
      have hp := h p (List.mem_cons_self _ _)
      have hbeq : (k == p.1) = false :=
        beq_eq_false_iff_ne.mpr (fun hc => hp hc.symm)
      rw [hbeq]
      exact ih (fun q hq => h q (List.mem_cons_of_mem _ hq))

theorem lookup_append_left_none {α : Type} (l1 l2 : List (Int × α))
    (k : Int) (h : List.lookup k l1 = none) :
    List.lookup k (l1 ++ l2) = List.lookup k l2 := by
  induction l1 with
  | nil => rfl
  | cons p rest ih =>
      rw [List.lookup] at h
      rw [List.cons_append, List.lookup]
      cases hbeq : (k == p.1) with
      | true => rw [hbeq] at h; exact absurd h (by simp)
      | false =>
          rw [hbeq] at h
          exact ih h

theorem setKey_fresh {α : Type} {l : List (Int × α)} {k : Int} (v : α)
    (h : List.lookup k l = none) : setKey l k v = l ++ [(k, v)] := by
  unfold setKey
  rw [h]
  rfl

theorem dictUpdate_untouched {α : Type} {l : List (Int × α)} {k : Int}
    (f : α → α) (h : ∀ p ∈ l, p.1 ≠ k) : dictUpdate l k f = l := by
  unfold dictUpdate
  induction l with
  | nil => rfl
  | cons p rest ih =>
      rw [List.map_cons]
      rw [if_neg (h p (List.mem_cons_self _ _))]
      rw [ih (fun q hq => h q (List.mem_cons_of_mem _ hq))]

theorem dictUpdate_concat {α : Type} {l0 : List (Int × α)} {k : Int}
    (v : α) (f : α → α) (h : ∀ p ∈ l0, p.1 ≠ k) :
    dictUpdate (l0 ++ [(k, v)]) k f = l0 ++ [(k, f v)] := by
  unfold dictUpdate
  rw [List.map_append]
  have h1 : l0.map (fun p => if p.1 = k then (k, f p.2) else p) = l0 := by
    have := dictUpdate_untouched f h
    unfold dictUpdate at this
    exact this
  rw [h1]
  simp

theorem flattenLegacy_append (D1 D2 : LegacyDates) :
    flattenLegacy (D1 ++ D2) = flattenLegacy D1 ++ flattenLegacy D2 :=
  List.flatMap_append D1 D2 _

theorem keys_lt_of_chain_concat {α : Type} {l0 : List (Int × α)}
    {k : Int} {v : α}
    (h : List.Chain' (· < ·) ((l0 ++ [(k, v)]).map Prod.fst)) :
    ∀ p ∈ l0, p.1 < k := by
  rw [List.map_append, List.chain'_iff_pairwise, List.pairwise_append] at h
  intro p hp
  exact h.2.2 p.1 (List.mem_map_of_mem Prod.fst hp) k (by simp)

theorem le_getLast_of_pairwise {l : List Int}
    (h : List.Pairwise (· < ·) l) {a : Int} (ha : l.getLast? = some a) :
    ∀ b ∈ l, b ≤ a := by
  induction l with
  | nil => simp at ha
  | cons x t ih =>
      intro b hb
      cases t with
      | nil =>
          simp at ha hb
          omega
      | cons y t2 =>
          rw [List.getLast?_cons_cons] at ha
          rcases List.mem_cons.mp hb with hb1 | hb2
          · have hxa : x < a :=
              (List.pairwise_cons.mp h).1 a
                (List.mem_of_getLast?_eq_some ha)
            omega
          · exact ih (List.pairwise_cons.mp h).2 ha b hb2

theorem foldl_setKey_fresh : ∀ (R : List Int) (D : LegacyDates),
    (∀ y ∈ R, List.lookup y D = none) → List.Pairwise (· ≠ ·) R →
    R.foldl (fun D y => setKey D y ([] : List (Int × List Int))) D =
      D ++ R.map (fun y => (y, [])) := by
  intro R
  induction R with
  | nil => intro D _ _; simp
  | cons y rest ih =>
      intro D hfresh hpw
      rw [List.foldl_cons,
        setKey_fresh [] (hfresh y (List.mem_cons_self _ _))]
      have hpw2 := List.pairwise_cons.mp hpw
      rw [ih (D ++ [(y, [])]) ?_ hpw2.2]
      · simp
      · intro z hz
        rw [lookup_append_left_none D [(y, [])] z
          (hfresh z (List.mem_cons_of_mem _ hz))]
        have hbeq : (z == y) = false :=
          beq_eq_false_iff_ne.mpr (Ne.symm (hpw2.1 z hz))
        rw [List.lookup, hbeq]
        rfl

theorem flattenLegacy_yearOnly (R : List Int) :
    flattenLegacy (R.map (fun y => (y, []))) =
      R.map (fun y => ⟨y, none, none⟩) := by
  induction R with
  | nil => rfl
  | cons y rest ih =>
      simp only [List.map_cons, flattenLegacy, List.flatMap_cons] at ih ⊢
      rw [ih]
      rfl

/-- Pointwise correspondence between a legacy branch result and a current
branch result: on success the flattened legacy structure is the current
flat list and the grain constants differ by the unit shift of the enum
(legacy ANNUAL 0, MONTHLY 1, DAILY 2 against current 1, 2, 3); on failure
both raise the same error. -/
def branchRel (x : Except PyErr (LegacyDates × Nat))
    (y : Except PyErr (List RequestDate × Nat)) : Prop :=
  (∃ D lg l g, x = .ok (D, lg) ∧ y = .ok (l, g) ∧ flattenLegacy D = l ∧
    g = lg + 1)
  ∨ (∃ e, x = .error e ∧ y = .error e)

theorem annual_rel (s1 s2 : List Char) :
    branchRel (legacyAnnual s1 s2) (annualBranch s1 s2) := by
  unfold legacyAnnual annualBranch branchRel
  cases hs : pyInt s1 with
  | error e => right; exact ⟨e, rfl, rfl⟩
  | ok s =>
      simp only [ok_bind]
      cases he : pyInt s2 with
      | error e => right; exact ⟨e, rfl, rfl⟩
      | ok e =>
          simp only [ok_bind]
          split_ifs with hord
          · right; exact ⟨.endBeforeStart, rfl, rfl⟩
          · left
            refine ⟨_, _, _, _, rfl, rfl, ?_, rfl⟩
            rw [foldl_setKey_fresh _ [] (fun y _ => rfl) ?_]
            · rw [List.nil_append, flattenLegacy_yearOnly]
            · exact (pyRangeList_pairwise s (e + 1) 1 one_pos).imp
                (fun h => ne_of_lt h)

/-- Well-formedness of a legacy structure built by the monthly loop:
strictly increasing year keys, each year holding a nonempty strictly
increasing month dict with empty day lists. -/
def mWF (D : LegacyDates) : Prop :=
  List.Chain' (· < ·) (D.map Prod.fst) ∧
  ∀ p ∈ D, p.2 ≠ [] ∧ List.Chain' (· < ·) (p.2.map Prod.fst) ∧
    ∀ q ∈ p.2, q.2 = ([] : List Int)

/-- The chronologically last year and month pair of the structure. -/
def lastMonthPair (D : LegacyDates) : Option (Int × Int) :=
  match D.getLast? with
  | none => none
  | some p =>
      match p.2.getLast? with
      | none => none
      | some q => some (p.1, q.1)

theorem lastMonthPair_concat (D0 : LegacyDates) (y : Int)
    (ms : List (Int × List Int)) (m : Int) (ds : List Int)
    (hms : ms.getLast? = some (m, ds)) :
    lastMonthPair (D0 ++ [(y, ms)]) = some (y, m) := by
  unfold lastMonthPair
  rw [List.getLast?_concat]
  dsimp only
  rw [hms]

theorem getLast_map_fst {α : Type} {l : List (Int × α)} {p : Int × α}
    (h : l.getLast? = some p) : (l.map Prod.fst).getLast? = some p.1 := by
  induction l with
  | nil => simp at h
  | cons q t ih =>
      cases t with
      | nil =>
          simp at h ⊢
          rw [h]
      | cons r t2 =>
          rw [List.getLast?_cons_cons] at h
          rw [List.map_cons, List.map_cons, List.getLast?_cons_cons]
          exact ih h

theorem chain_concat_keys {α : Type} {l : List (Int × α)} {k : Int}
    {v : α} (hc : List.Chain' (· < ·) (l.map Prod.fst))
    (hlt : ∀ p ∈ l, p.1 < k) :
    List.Chain' (· < ·) ((l ++ [(k, v)]).map Prod.fst) := by
  rw [List.map_append, List.chain'_iff_pairwise, List.pairwise_append]
  refine ⟨List.chain'_iff_pairwise.mp hc, by simp, ?_⟩
  intro a ha b hb
  rw [List.map_cons, List.map_nil, List.mem_singleton] at hb
  obtain ⟨p, hp, rfl⟩ := List.mem_map.mp ha
  rw [hb]
  exact hlt p hp

theorem monthFlat (y : Int) : ∀ (ms : List (Int × List Int)),
    (∀ q ∈ ms, q.2 = ([] : List Int)) →
    ms.flatMap (fun q =>
      if q.2.isEmpty then [(⟨y, some q.1, none⟩ : RequestDate)]
      else q.2.map (fun d => ⟨y, some q.1, some d⟩)) =
    ms.map (fun q => ⟨y, some q.1, none⟩) := by
  intro ms
  induction ms with
  | nil => intro _; rfl
  | cons q rest ih =>
      intro hd
      simp only [List.flatMap_cons, List.map_cons]
      rw [hd q (List.mem_cons_self _ _)]
      rw [ih (fun r hr => hd r (List.mem_cons_of_mem _ hr))]
      rfl

theorem flattenLegacy_monthOnly (y : Int) (ms : List (Int × List Int))
    (hne : ms ≠ []) (hd : ∀ q ∈ ms, q.2 = ([] : List Int)) :
    flattenLegacy [(y, ms)] =
      ms.map (fun q => ⟨y, some q.1, none⟩) := by
  obtain ⟨q0, rest, rfl⟩ := List.exists_cons_of_ne_nil hne
  have h1 : flattenLegacy [(y, q0 :: rest)] =
      (q0 :: rest).flatMap (fun q =>
        if q.2.isEmpty then [(⟨y, some q.1, none⟩ : RequestDate)]
        else q.2.map (fun d => ⟨y, some q.1, some d⟩)) := by
    simp [flattenLegacy]
  rw [h1, monthFlat y _ hd]

theorem insMonthPair_flatten (D : LegacyDates) (y m : Int) (hWF : mWF D)
    (hfront : D = [] ∨ ∃ lp, lastMonthPair D = some lp ∧
      monthPairLt lp (y, m)) :
    flattenLegacy (insMonthPair D (y, m)) =
      flattenLegacy D ++ [⟨y, some m, none⟩]
    ∧ mWF (insMonthPair D (y, m))
    ∧ lastMonthPair (insMonthPair D (y, m)) = some (y, m) := by
  rcases List.eq_nil_or_concat D with rfl | ⟨D0, p, rfl⟩
  · have h0 : insMonthPair [] (y, m) = [(y, [(m, [])])] := by
      simp [insMonthPair, dictAddYear, dictUpdate, setKey, List.lookup]
    rw [h0]
    refine ⟨rfl, ⟨by simp, ?_⟩, lastMonthPair_concat [] y [(m, [])] m [] rfl⟩
    intro p hp
    rw [List.mem_singleton] at hp
    subst hp
    refine ⟨by simp, by simp, ?_⟩
    intro q hq
    rw [List.mem_singleton] at hq
    rw [hq]
  · obtain ⟨ly, lms⟩ := p
    rw [List.concat_eq_append] at hWF hfront ⊢
    rcases hfront with hnil | ⟨lp, hlp, hlt⟩
    · exact absurd hnil (by simp)
    have hlmsne : lms ≠ [] := by
      intro hcon
      unfold lastMonthPair at hlp
      rw [List.getLast?_concat] at hlp
      dsimp only at hlp
      rw [hcon] at hlp
      simp at hlp
    obtain ⟨lq, hlq⟩ :=
      Option.isSome_iff_exists.mp (List.getLast?_isSome.mpr hlmsne)
    have hlp2 : lp = (ly, lq.1) := by
      unfold lastMonthPair at hlp
      rw [List.getLast?_concat] at hlp
      dsimp only at hlp
      rw [hlq] at hlp
      dsimp only at hlp
      simp only [Option.some.injEq] at hlp
      exact hlp.symm
    subst hlp2
    have hkeys : ∀ p ∈ D0, p.1 < ly := keys_lt_of_chain_concat hWF.1
    have hlmsWF := hWF.2 (ly, lms) (by simp)
    unfold monthPairLt at hlt
    dsimp only at hlt
    rcases hlt with hly | ⟨rfl, hm⟩
    · -- fresh year: ly < y, so a new year entry with one month is appended
      have hlty : ∀ p ∈ D0 ++ [(ly, lms)], p.1 < y := by
        intro p hp
        rcases List.mem_append.mp hp with h1 | h2
        · exact (hkeys p h1).trans hly
        · rw [List.mem_singleton] at h2
          rw [h2]
          exact hly
      have hne1 : ∀ p ∈ D0 ++ [(ly, lms)], p.1 ≠ y :=
        fun p hp => ne_of_lt (hlty p hp)
      have hAdd : dictAddYear (D0 ++ [(ly, lms)]) y =
          (D0 ++ [(ly, lms)]) ++ [(y, [])] := by
        unfold dictAddYear
        rw [lookup_none_of_keys_ne hne1]
        rfl
      have hins : insMonthPair (D0 ++ [(ly, lms)]) (y, m) =
          (D0 ++ [(ly, lms)]) ++ [(y, [(m, [])])] := by
        unfold insMonthPair
        rw [hAdd]
        rw [dictUpdate_concat [] _ hne1]
        simp [setKey, List.lookup]
      rw [hins]
      refine ⟨?_, ⟨?_, ?_⟩, lastMonthPair_concat _ y [(m, [])] m [] rfl⟩
      · rw [flattenLegacy_append]
        rfl
      · exact chain_concat_keys hWF.1 hlty
      · intro p hp
        rcases List.mem_append.mp hp with h1 | h2
        · exact hWF.2 p h1
        · rw [List.mem_singleton] at h2
          subst h2
          refine ⟨by simp, by simp, ?_⟩
          intro q hq
          rw [List.mem_singleton] at hq
          rw [hq]
    · -- same year, fresh month: append the month to the last year entry
      have hmonths : ∀ q ∈ lms, q.1 ≤ lq.1 :=
        fun q hq => le_getLast_of_pairwise
          (List.chain'_iff_pairwise.mp hlmsWF.2.1)
          (getLast_map_fst hlq) q.1 (List.mem_map_of_mem Prod.fst hq)
      have hne0 : ∀ p ∈ D0, p.1 ≠ ly := fun p hp => ne_of_lt (hkeys p hp)
      have hfreshm : List.lookup m lms = none := by
        apply lookup_none_of_keys_ne
        intro q hq
        exact ne_of_lt (lt_of_le_of_lt (hmonths q hq) hm)
      have hlook : List.lookup ly (D0 ++ [(ly, lms)]) = some lms := by
        rw [lookup_append_left_none D0 [(ly, lms)] ly
          (lookup_none_of_keys_ne hne0)]
        rw [List.lookup, beq_self_eq_true]
      have hAdd : dictAddYear (D0 ++ [(ly, lms)]) ly =
          D0 ++ [(ly, lms)] := by
        unfold dictAddYear
        rw [hlook]
        rfl
      have hins : insMonthPair (D0 ++ [(ly, lms)]) (ly, m) =
          D0 ++ [(ly, lms ++ [(m, [])])] := by
        unfold insMonthPair
        rw [hAdd]
        rw [dictUpdate_concat lms _ hne0]
        simp only [setKey_fresh ([] : List Int) hfreshm]
      have hdays : ∀ q ∈ lms ++ [(m, [])], q.2 = ([] : List Int) := by
        intro q hq
        rcases List.mem_append.mp hq with h1 | h2
        · exact hlmsWF.2.2 q h1
        · rw [List.mem_singleton] at h2
          rw [h2]
      rw [hins]
      refine ⟨?_, ⟨?_, ?_⟩,
        lastMonthPair_concat D0 ly (lms ++ [(m, [])]) m []
          (List.getLast?_concat _)⟩
      · rw [flattenLegacy_append, flattenLegacy_append, List.append_assoc]
        rw [flattenLegacy_monthOnly ly (lms ++ [(m, [])]) (by simp) hdays]
        rw [flattenLegacy_monthOnly ly lms hlmsne hlmsWF.2.2]
        rw [List.map_append]
        rfl
      · have hk : (D0 ++ [(ly, lms ++ [(m, [])])]).map Prod.fst =
            (D0 ++ [(ly, lms)]).map Prod.fst := by simp
        rw [hk]
        exact hWF.1
      · intro p hp
        rcases List.mem_append.mp hp with h1 | h2
        · exact hWF.2 p (List.mem_append_left _ h1)
        · rw [List.mem_singleton] at h2
          subst h2
          refine ⟨by simp, ?_, hdays⟩
          apply chain_concat_keys hlmsWF.2.1
          intro q hq
          exact lt_of_le_of_lt (hmonths q hq) hm

theorem foldl_insMonthPair : ∀ (L : List (Int × Int)) (D : LegacyDates),
    mWF D →
    (∀ p, L.head? = some p → D = [] ∨ ∃ lp, lastMonthPair D = some lp ∧
      monthPairLt lp p) →
    List.Chain' monthPairLt L →
    flattenLegacy (L.foldl insMonthPair D) =
      flattenLegacy D ++
        L.map (fun p => (⟨p.1, some p.2, none⟩ : RequestDate)) := by
  intro L
  induction L with
  | nil => intro D _ _ _; simp
  | cons p rest ih =>
      intro D hWF hfront hchain
      obtain ⟨py, pm⟩ := p
      rw [List.foldl_cons]
      obtain ⟨hflat, hWF2, hlast⟩ :=
        insMonthPair_flatten D py pm hWF (hfront (py, pm) rfl)
      have hch2 := List.chain'_cons'.mp hchain
      have hfront2 : ∀ q, rest.head? = some q →
          insMonthPair D (py, pm) = [] ∨ ∃ lp,
            lastMonthPair (insMonthPair D (py, pm)) = some lp ∧
            monthPairLt lp q := by
        intro q hq
        right
        exact ⟨(py, pm), hlast, hch2.1 q hq⟩
      rw [ih (insMonthPair D (py, pm)) hWF2 hfront2 hch2.2, hflat,
        List.map_cons, List.append_assoc]
      rfl

theorem legacyMonthlyWalk_eq_foldl (sy ey em : Int) : ∀ (fuel : Nat)
    (cy cm mcnt : Int) (D : LegacyDates),
    legacyMonthlyWalk sy ey em fuel cy cm mcnt D =
      (monthlyWalk sy ey em fuel cy cm mcnt).foldl insMonthPair D := by
  intro fuel
  induction fuel with
  | zero => intro cy cm mcnt D; rfl
  | succ n ih =>
      intro cy cm mcnt D
      rw [legacyMonthlyWalk, monthlyWalk]
      by_cases h : cy * 12 + cm ≤ ey * 12 + em
      · rw [if_pos h, if_pos h, List.foldl_cons]
        exact ih _ _ _ _
      · rw [if_neg h, if_neg h]
        rfl

theorem monthly_rel (s1 s2 : List Char) :
    branchRel (legacyMonthly s1 s2) (monthlyBranch s1 s2) := by
  unfold legacyMonthly monthlyBranch branchRel
  cases hs : pyIntList (pySplit '-' s1) with
  | error e => right; exact ⟨e, rfl, rfl⟩
  | ok sParts =>
      simp only [ok_bind]
      cases hsu : unpack2 sParts with
      | error e => right; exact ⟨e, rfl, rfl⟩
      | ok sp =>
          obtain ⟨sy, sm⟩ := sp
          simp only [ok_bind]
          cases he : pyIntList (pySplit '-' s2) with
          | error e => right; exact ⟨e, rfl, rfl⟩
          | ok eParts =>
              simp only [ok_bind]
              cases heu : unpack2 eParts with
              | error e => right; exact ⟨e, rfl, rfl⟩
              | ok ep =>
                  obtain ⟨ey, em⟩ := ep
                  simp only [ok_bind]
                  split_ifs with hsm hem hord
                  · right; exact ⟨.badMonth sm, rfl, rfl⟩
                  · right; exact ⟨.badMonth em, rfl, rfl⟩
                  · right; exact ⟨.endBeforeStart, rfl, rfl⟩
                  · left
                    refine ⟨_, _, _, _, rfl, rfl, ?_, rfl⟩
                    rw [legacyMonthlyWalk_eq_foldl]
                    have hprops := monthlyWalk_props sy ey em
                      (monthlyFuel sy sm ey em) (sm - 1)
                    have hdv : sy + (sm - 1) / 12 = sy := by omega
                    have hmv : (sm - 1) % 12 + 1 = sm := by omega
                    rw [hdv, hmv] at hprops
                    rw [foldl_insMonthPair _ [] ⟨by simp, by simp⟩
                      (fun q hq => Or.inl rfl) hprops.1]
                    rfl

/-- Well-formedness of a legacy structure built by the daily loop:
strictly increasing year keys, each year holding a nonempty strictly
increasing month dict whose day lists are nonempty and strictly
increasing. -/
def dWF (D : LegacyDates) : Prop :=
  List.Chain' (· < ·) (D.map Prod.fst) ∧
  ∀ p ∈ D, p.2 ≠ [] ∧ List.Chain' (· < ·) (p.2.map Prod.fst) ∧
    ∀ q ∈ p.2, q.2 ≠ [] ∧ List.Chain' (· < ·) q.2

/-- The chronologically last date stored in the structure. -/
def lastTriple (D : LegacyDates) : Option PyDate :=
  match D.getLast? with
  | none => none
  | some p =>
      match p.2.getLast? with
      | none => none
      | some q =>
          match q.2.getLast? with
          | none => none
          | some dd => some ⟨p.1, q.1, dd⟩

theorem lastTriple_concat (D0 : LegacyDates) (y : Int)
    (ms : List (Int × List Int)) (m : Int) (ds : List Int) (dd : Int)
    (hms : ms.getLast? = some (m, ds)) (hds : ds.getLast? = some dd) :
    lastTriple (D0 ++ [(y, ms)]) = some ⟨y, m, dd⟩ := by
  unfold lastTriple
  rw [List.getLast?_concat]
  dsimp only
  rw [hms]
  dsimp only
  rw [hds]

theorem dayFlat (y : Int) : ∀ (ms : List (Int × List Int)),
    (∀ q ∈ ms, q.2 ≠ ([] : List Int)) →
    ms.flatMap (fun q =>
      if q.2.isEmpty then [(⟨y, some q.1, none⟩ : RequestDate)]
      else q.2.map (fun dd => ⟨y, some q.1, some dd⟩)) =
    ms.flatMap (fun q => q.2.map (fun dd =>
      (⟨y, some q.1, some dd⟩ : RequestDate))) := by
  intro ms
  induction ms with
  | nil => intro _; rfl
  | cons q rest ih =>
      intro hd
      simp only [List.flatMap_cons]
      rw [ih (fun r hr => hd r (List.mem_cons_of_mem _ hr))]
      obtain ⟨d0, ds, he⟩ :=
        List.exists_cons_of_ne_nil (hd q (List.mem_cons_self _ _))
      rw [he]
      rfl

theorem flattenLegacy_dayOnly (y : Int) (ms : List (Int × List Int))
    (hne : ms ≠ []) (hd : ∀ q ∈ ms, q.2 ≠ ([] : List Int)) :
    flattenLegacy [(y, ms)] = ms.flatMap (fun q => q.2.map (fun dd =>
      (⟨y, some q.1, some dd⟩ : RequestDate))) := by
  obtain ⟨q0, rest, rfl⟩ := List.exists_cons_of_ne_nil hne
  have h1 : flattenLegacy [(y, q0 :: rest)] =
      (q0 :: rest).flatMap (fun q =>
        if q.2.isEmpty then [(⟨y, some q.1, none⟩ : RequestDate)]
        else q.2.map (fun dd => ⟨y, some q.1, some dd⟩)) := by
    simp [flattenLegacy]
  rw [h1, dayFlat y _ hd]

theorem insDay_flatten (D : LegacyDates) (d : PyDate) (hWF : dWF D)
    (hfront : D = [] ∨ ∃ lt, lastTriple D = some lt ∧ dateLt lt d) :
    flattenLegacy (insDay D d) = flattenLegacy D ++ [dayToRD d]
    ∧ dWF (insDay D d)
    ∧ lastTriple (insDay D d) = some ⟨d.year, d.month, d.day⟩ := by
  rcases List.eq_nil_or_concat D with rfl | ⟨D0, p, rfl⟩
  · have h0 : insDay [] d = [(d.year, [(d.month, [d.day])])] := by
      simp [insDay, dictAddYear, dictUpdate, List.lookup]
    rw [h0]
    refine ⟨rfl, ⟨by simp, ?_⟩,
      lastTriple_concat [] d.year [(d.month, [d.day])] d.month [d.day]
        d.day rfl rfl⟩
    intro p hp
    rw [List.mem_singleton] at hp
    subst hp
    refine ⟨by simp, by simp, ?_⟩
    intro q hq
    rw [List.mem_singleton] at hq
    subst hq
    exact ⟨by simp, by simp⟩
  · obtain ⟨ly, lms⟩ := p
    rw [List.concat_eq_append] at hWF hfront ⊢
    rcases hfront with hnil | ⟨lt, hlp, hlt⟩
    · exact absurd hnil (by simp)
    have hlmsne : lms ≠ [] := by
      intro hcon
      unfold lastTriple at hlp
      rw [List.getLast?_concat] at hlp
      dsimp only at hlp
      rw [hcon] at hlp
      simp at hlp
    obtain ⟨lq, hlq⟩ :=
      Option.isSome_iff_exists.mp (List.getLast?_isSome.mpr hlmsne)
    have hlqne : lq.2 ≠ [] := by
      intro hcon
      unfold lastTriple at hlp
      rw [List.getLast?_concat] at hlp
      dsimp only at hlp
      rw [hlq] at hlp
      dsimp only at hlp
      rw [hcon] at hlp
      simp at hlp
    obtain ⟨ld, hld⟩ :=
      Option.isSome_iff_exists.mp (List.getLast?_isSome.mpr hlqne)
    have hlt2 : lt = ⟨ly, lq.1, ld⟩ := by
      unfold lastTriple at hlp
      rw [List.getLast?_concat] at hlp
      dsimp only at hlp
      rw [hlq] at hlp
      dsimp only at hlp
      rw [hld] at hlp
      dsimp only at hlp
      simp only [Option.some.injEq] at hlp
      exact hlp.symm
    subst hlt2
    have hkeys : ∀ p ∈ D0, p.1 < ly := keys_lt_of_chain_concat hWF.1
    have hlmsWF := hWF.2 (ly, lms) (by simp)
    have hmonths : ∀ q ∈ lms, q.1 ≤ lq.1 :=
      fun q hq => le_getLast_of_pairwise
        (List.chain'_iff_pairwise.mp hlmsWF.2.1)
        (getLast_map_fst hlq) q.1 (List.mem_map_of_mem Prod.fst hq)
    unfold dateLt at hlt
    dsimp only at hlt
    rcases hlt with hy | ⟨hyeq, hm | ⟨hmeq, hd2⟩⟩
    · -- fresh year: a new year entry with one month and one day is appended
      have hlty : ∀ p ∈ D0 ++ [(ly, lms)], p.1 < d.year := by
        intro p hp
        rcases List.mem_append.mp hp with h1 | h2
        · exact (hkeys p h1).trans hy
        · rw [List.mem_singleton] at h2
          rw [h2]
          exact hy
      have hne1 : ∀ p ∈ D0 ++ [(ly, lms)], p.1 ≠ d.year :=
        fun p hp => ne_of_lt (hlty p hp)
      have hins : insDay (D0 ++ [(ly, lms)]) d =
          (D0 ++ [(ly, lms)]) ++ [(d.year, [(d.month, [d.day])])] := by
        unfold insDay
        have hAdd : dictAddYear (D0 ++ [(ly, lms)]) d.year =
            (D0 ++ [(ly, lms)]) ++ [(d.year, [])] := by
          unfold dictAddYear
          rw [lookup_none_of_keys_ne hne1]
          rfl
        rw [hAdd, dictUpdate_concat [] _ hne1, dictUpdate_concat _ _ hne1]
        simp [List.lookup]
      rw [hins]
      refine ⟨?_, ⟨?_, ?_⟩,
        lastTriple_concat _ d.year [(d.month, [d.day])] d.month [d.day]
          d.day rfl rfl⟩
      · rw [flattenLegacy_append]
        rfl
      · exact chain_concat_keys hWF.1 hlty
      · intro p hp
        rcases List.mem_append.mp hp with h1 | h2
        · exact hWF.2 p h1
        · rw [List.mem_singleton] at h2
          subst h2
          refine ⟨by simp, by simp, ?_⟩
          intro q hq
          rw [List.mem_singleton] at hq
          subst hq
          exact ⟨by simp, by simp⟩
    · -- same year, fresh month: the month is appended to the last year
      subst hyeq
      have hne0 : ∀ p ∈ D0, p.1 ≠ d.year := fun p hp => ne_of_lt (hkeys p hp)
      have hneq : ∀ q ∈ lms, q.1 ≠ d.month :=
        fun q hq => ne_of_lt (lt_of_le_of_lt (hmonths q hq) hm)
      have hfreshm : List.lookup d.month lms = none :=
        lookup_none_of_keys_ne hneq
      have hlook : List.lookup d.year (D0 ++ [(d.year, lms)]) = some lms := by
        rw [lookup_append_left_none D0 [(d.year, lms)] d.year
          (lookup_none_of_keys_ne hne0)]
        rw [List.lookup, beq_self_eq_true]
      have hAdd : dictAddYear (D0 ++ [(d.year, lms)]) d.year =
          D0 ++ [(d.year, lms)] := by
        unfold dictAddYear
        rw [hlook]
        rfl
      have hv1 : (if (List.lookup d.month lms).isSome then lms
          else lms ++ [(d.month, [])]) = lms ++ [(d.month, [])] := by
        rw [hfreshm]
        rfl
      have hmap : (lms ++ [(d.month, [])]).map
          (fun (q : Int × List Int) =>
            if q.1 = d.month then (d.month, q.2 ++ [d.day])
            else q) = lms ++ [(d.month, [d.day])] := by
        rw [List.map_append]
        have h1 : lms.map
            (fun (q : Int × List Int) =>
              if q.1 = d.month then (d.month, q.2 ++ [d.day])
              else q) = lms :=
          dictUpdate_untouched (fun v => v ++ [d.day]) hneq
        rw [h1]
        simp
      have hins : insDay (D0 ++ [(d.year, lms)]) d =
          D0 ++ [(d.year, lms ++ [(d.month, [d.day])])] := by
        unfold insDay
        rw [hAdd, dictUpdate_concat lms _ hne0,
          dictUpdate_concat _ _ hne0]
        simp only [hv1, hmap]
      have hdne : ∀ q ∈ lms ++ [(d.month, [d.day])], q.2 ≠ ([] : List Int) := by
        intro q hq
        rcases List.mem_append.mp hq with h1 | h2
        · exact (hlmsWF.2.2 q h1).1
        · rw [List.mem_singleton] at h2
          rw [h2]
          simp
      rw [hins]
      refine ⟨?_, ⟨?_, ?_⟩,
        lastTriple_concat D0 d.year (lms ++ [(d.month, [d.day])]) d.month
          [d.day] d.day (List.getLast?_concat _) rfl⟩
      · rw [flattenLegacy_append, flattenLegacy_append, List.append_assoc]
        rw [flattenLegacy_dayOnly d.year (lms ++ [(d.month, [d.day])])
          (by simp) hdne]
        rw [flattenLegacy_dayOnly d.year lms hlmsne
          (fun q hq => (hlmsWF.2.2 q hq).1)]
        rw [List.flatMap_append]
        rfl
      · have hk : (D0 ++ [(d.year, lms ++ [(d.month, [d.day])])]).map
            Prod.fst = (D0 ++ [(d.year, lms)]).map Prod.fst := by simp
        rw [hk]
        exact hWF.1
      · intro p hp
        rcases List.mem_append.mp hp with h1 | h2
        · exact hWF.2 p (List.mem_append_left _ h1)
        · rw [List.mem_singleton] at h2
          subst h2
          refine ⟨by simp, ?_, ?_⟩
          · apply chain_concat_keys hlmsWF.2.1
            intro q hq
            exact lt_of_le_of_lt (hmonths q hq) hm
          · intro q hq
            rcases List.mem_append.mp hq with h1 | h2
            · exact hlmsWF.2.2 q h1
            · rw [List.mem_singleton] at h2
              subst h2
              exact ⟨by simp, by simp⟩
    · -- same year and month: the day is appended to the last day list
      subst hyeq
      rcases List.eq_nil_or_concat lms with hnil2 | ⟨lms0, lq2, hcat⟩
      · exact absurd hnil2 hlmsne
      rw [List.concat_eq_append] at hcat
      have hlq2 : lq = lq2 := by
        rw [hcat, List.getLast?_concat] at hlq
        exact (Option.some.inj hlq).symm
      subst hlq2
      obtain ⟨lqm, lqd⟩ := lq
      dsimp only at hmeq hld hmonths
      subst hmeq
      subst hcat
      have hne0 : ∀ p ∈ D0, p.1 ≠ d.year := fun p hp => ne_of_lt (hkeys p hp)
      have hkeys0 : ∀ q ∈ lms0, q.1 < d.month :=
        keys_lt_of_chain_concat hlmsWF.2.1
      have hlqdWF := hlmsWF.2.2 (d.month, lqd)
        (List.mem_append_right _ (List.mem_singleton_self _))
      have hlookm : List.lookup d.month (lms0 ++ [(d.month, lqd)]) =
          some lqd := by
        rw [lookup_append_left_none lms0 _ d.month
          (lookup_none_of_keys_ne (fun q hq => ne_of_lt (hkeys0 q hq)))]
        rw [List.lookup, beq_self_eq_true]
      have hlook : List.lookup d.year
          (D0 ++ [(d.year, lms0 ++ [(d.month, lqd)])]) =
          some (lms0 ++ [(d.month, lqd)]) := by
        rw [lookup_append_left_none D0 _ d.year
          (lookup_none_of_keys_ne hne0)]
        rw [List.lookup, beq_self_eq_true]
      have hAdd : dictAddYear (D0 ++ [(d.year, lms0 ++ [(d.month, lqd)])])
          d.year = D0 ++ [(d.year, lms0 ++ [(d.month, lqd)])] := by
        unfold dictAddYear
        rw [hlook]
        rfl
      have hv1 : (if (List.lookup d.month
            (lms0 ++ [(d.month, lqd)])).isSome then
          lms0 ++ [(d.month, lqd)]
          else (lms0 ++ [(d.month, lqd)]) ++ [(d.month, [])]) =
          lms0 ++ [(d.month, lqd)] := by
        rw [hlookm]
        rfl
      have hmap : (lms0 ++ [(d.month, lqd)]).map
          (fun (q : Int × List Int) =>
            if q.1 = d.month then (d.month, q.2 ++ [d.day])
            else q) = lms0 ++ [(d.month, lqd ++ [d.day])] := by
        rw [List.map_append]
        have h1 : lms0.map
            (fun (q : Int × List Int) =>
              if q.1 = d.month then (d.month, q.2 ++ [d.day])
              else q) = lms0 :=
          dictUpdate_untouched (fun v => v ++ [d.day])
            (fun q hq => ne_of_lt (hkeys0 q hq))
        rw [h1]
        simp
      have hins : insDay (D0 ++ [(d.year, lms0 ++ [(d.month, lqd)])]) d =
          D0 ++ [(d.year, lms0 ++ [(d.month, lqd ++ [d.day])])] := by
        unfold insDay
        rw [hAdd, dictUpdate_concat _ _ hne0, dictUpdate_concat _ _ hne0]
        simp only [hv1, hmap]
      have hdne : ∀ q ∈ lms0 ++ [(d.month, lqd ++ [d.day])],
          q.2 ≠ ([] : List Int) := by
        intro q hq
        rcases List.mem_append.mp hq with h1 | h2
        · exact (hlmsWF.2.2 q (List.mem_append_left _ h1)).1
        · rw [List.mem_singleton] at h2
          rw [h2]
          simp
      rw [hins]
      refine ⟨?_, ⟨?_, ?_⟩,
        lastTriple_concat D0 d.year (lms0 ++ [(d.month, lqd ++ [d.day])])
          d.month (lqd ++ [d.day]) d.day (List.getLast?_concat _)
          (List.getLast?_concat _)⟩
      · rw [flattenLegacy_append, flattenLegacy_append, List.append_assoc]
        rw [flattenLegacy_dayOnly d.year
          (lms0 ++ [(d.month, lqd ++ [d.day])]) (by simp) hdne]
        rw [flattenLegacy_dayOnly d.year (lms0 ++ [(d.month, lqd)])
          (by simp) (fun q hq => (hlmsWF.2.2 q hq).1)]
        rw [List.flatMap_append, List.flatMap_append]
        simp [dayToRD]
      · have hk : (D0 ++ [(d.year, lms0 ++
            [(d.month, lqd ++ [d.day])])]).map Prod.fst =
            (D0 ++ [(d.year, lms0 ++ [(d.month, lqd)])]).map Prod.fst := by
          simp
        rw [hk]
        exact hWF.1
      · intro p hp
        rcases List.mem_append.mp hp with h1 | h2
        · exact hWF.2 p (List.mem_append_left _ h1)
        · rw [List.mem_singleton] at h2
          subst h2
          refine ⟨by simp, ?_, ?_⟩
          · have hkm : (lms0 ++ [(d.month, lqd ++ [d.day])]).map Prod.fst =
                (lms0 ++ [(d.month, lqd)]).map Prod.fst := by simp
            rw [hkm]
            exact hlmsWF.2.1
          · intro q hq
            rcases List.mem_append.mp hq with h1 | h2
            · exact hlmsWF.2.2 q (List.mem_append_left _ h1)
            · rw [List.mem_singleton] at h2
              subst h2
              refine ⟨by simp, ?_⟩
              refine List.Chain'.append hlqdWF.2 (List.chain'_singleton _) ?_
              intro x hx y hy
              simp only [Option.mem_def] at hx hy
              rw [hld] at hx
              simp only [List.head?_cons, Option.some.injEq] at hx hy
              subst hx
              subst hy
              exact hd2

theorem foldl_insDay : ∀ (L : List PyDate) (D : LegacyDates),
    dWF D →
    (∀ p, L.head? = some p → D = [] ∨ ∃ lt, lastTriple D = some lt ∧
      dateLt lt p) →
    List.Chain' dateLt L →
    flattenLegacy (L.foldl insDay D) =
      flattenLegacy D ++ L.map dayToRD := by
  intro L
  induction L with
  | nil => intro D _ _ _; simp
  | cons p rest ih =>
      intro D hWF hfront hchain
      rw [List.foldl_cons]
      obtain ⟨hflat, hWF2, hlast⟩ :=
        insDay_flatten D p hWF (hfront p rfl)
      have hch2 := List.chain'_cons'.mp hchain
      have hfront2 : ∀ q, rest.head? = some q →
          insDay D p = [] ∨ ∃ lt, lastTriple (insDay D p) = some lt ∧
            dateLt lt q := by
        intro q hq
        right
        exact ⟨⟨p.year, p.month, p.day⟩, hlast, hch2.1 q hq⟩
      rw [ih (insDay D p) hWF2 hfront2 hch2.2, hflat,
        List.map_cons, List.append_assoc]
      rfl

theorem legacyDailyWalk_eq_foldl : ∀ (fuel : Nat) (cur stop : PyDate)
    (D : LegacyDates),
    legacyDailyWalk fuel cur stop D =
      (dailyWalk fuel cur stop).foldl insDay D := by
  intro fuel
  induction fuel with
  | zero => intro cur stop D; rfl
  | succ n ih =>
      intro cur stop D
      rw [legacyDailyWalk, dailyWalk]
      by_cases h : cur = stop
      · rw [if_pos h, if_pos h]
        rfl
      · rw [if_neg h, if_neg h, List.foldl_cons]
        exact ih _ _ _

theorem dailyWalk_head_cases : ∀ (n : Nat) (cur stop : PyDate),
    (dailyWalk n cur stop).head? = none ∨
    (dailyWalk n cur stop).head? = some cur := by
  intro n cur stop
  cases n with
  | zero => left; rfl
  | succ k =>
      rw [dailyWalk]
      by_cases h : cur = stop
      · rw [if_pos h]
        left
        rfl
      · rw [if_neg h]
        right
        rfl

theorem dailyWalk_chain_lt : ∀ (fuel : Nat) (cur stop : PyDate),
    List.Chain' dateLt (dailyWalk fuel cur stop) := by
  intro fuel
  induction fuel with
  | zero => intro cur stop; simp [dailyWalk]
  | succ n ih =>
      intro cur stop
      rw [dailyWalk]
      by_cases h : cur = stop
      · rw [if_pos h]
        simp
      · rw [if_neg h, List.chain'_cons']
        refine ⟨?_, ih _ _⟩
        intro b hb
        simp only [Option.mem_def] at hb
        rcases dailyWalk_head_cases n (nextDate cur) stop with h1 | h1
        · rw [h1] at hb
          exact Option.noConfusion hb
        · rw [h1] at hb
          simp only [Option.some.injEq] at hb
          rw [← hb]
          exact dateLt_nextDate cur

theorem daily_rel (s1 s2 : List Char) :
    branchRel (legacyDaily s1 s2) (dailyBranch s1 s2) := by
  unfold legacyDaily dailyBranch branchRel
  cases hs : pyIntList (pySplit '-' s1) with
  | error e => right; exact ⟨e, rfl, rfl⟩
  | ok sParts =>
      simp only [ok_bind]
      cases hsu : unpack3 sParts with
      | error e => right; exact ⟨e, rfl, rfl⟩
      | ok sp =>
          obtain ⟨sy, sm, sd⟩ := sp
          simp only [ok_bind]
          cases he : pyIntList (pySplit '-' s2) with
          | error e => right; exact ⟨e, rfl, rfl⟩
          | ok eParts =>
              simp only [ok_bind]
              cases heu : unpack3 eParts with
              | error e => right; exact ⟨e, rfl, rfl⟩
              | ok ep =>
                  obtain ⟨ey, em, ed⟩ := ep
                  simp only [ok_bind]
                  cases hmk1 : mkPyDate sy sm sd with
                  | error e => right; exact ⟨e, rfl, rfl⟩
                  | ok startD =>
                      simp only [ok_bind]
                      cases hmk2 : mkPyDate ey em ed with
                      | error e => right; exact ⟨e, rfl, rfl⟩
                      | ok endD =>
                          simp only [ok_bind]
                          split_ifs with hord
                          · right; exact ⟨.endBeforeStart, rfl, rfl⟩
                          · cases hsc : pyDateSucc endD with
                            | error e => right; exact ⟨e, rfl, rfl⟩
                            | ok stop =>
                                simp only [ok_bind]
                                left
                                refine ⟨_, _, _, _, rfl, rfl, ?_, rfl⟩
                                rw [legacyDailyWalk_eq_foldl]
                                rw [foldl_insDay _ [] ⟨by simp, by simp⟩
                                  (fun q hq => Or.inl rfl)
                                  (dailyWalk_chain_lt _ _ _)]
                                rfl

/-- Pointwise correspondence between the legacy parser and the current
simple-range parser: on success the flattened legacy structure is the
current flat list and the grain enums differ by the unit shift; on failure
both raise (the current parser rejects empty strings as unspecified dates
where the legacy one falls through to its granularity mismatch, so only
the failure itself is shared there). -/
def parseRel (x : Except PyErr (LegacyDates × Nat))
    (y : Except PyErr (List RequestDate × Nat)) : Prop :=
  (∃ D lg l g, x = .ok (D, lg) ∧ y = .ok (l, g) ∧ flattenLegacy D = l ∧
    g = lg + 1)
  ∨ (∃ e1 e2, x = .error e1 ∧ y = .error e2)

theorem branchRel_to_parseRel {x : Except PyErr (LegacyDates × Nat)}
    {y : Except PyErr (List RequestDate × Nat)} (h : branchRel x y) :
    parseRel x y := by
  rcases h with ⟨D, lg, l, g, hx, hy, hf, hg⟩ | ⟨e, hx, hy⟩
  · exact Or.inl ⟨D, lg, l, g, hx, hy, hf, hg⟩
  · exact Or.inr ⟨e, e, hx, hy⟩

/-- C10: for every pair of date strings, the legacy parser _parse_dates
and the current parser _parseSimpleDateRange succeed on exactly the same
inputs up to the empty-string dispatch, the flattened legacy
year-month-day structure read in insertion order equals the current flat
RequestDate list, the grain enums agree up to the unit shift of the
constants, and on every other input both raise. -/
theorem claim_c10 (s1 s2 : List Char) :
    parseRel (legacyParseDates s1 s2)
      (parseSimpleDateRange (some s1) (some s2)) := by
  have hred : parseSimpleDateRange (some s1) (some s2) =
      (if s1 = [] ∨ s2 = [] then .error .datesUnspecified
       else if s1.length = 4 ∧ s2.length = 4 then annualBranch s1 s2
       else if s1.length = 7 ∧ s2.length = 7 then monthlyBranch s1 s2
       else if s1.length = 10 ∧ s2.length = 10 then dailyBranch s1 s2
       else .error .mismatchedGrain) := rfl
  rw [hred]
  unfold legacyParseDates
  by_cases hempty : s1 = [] ∨ s2 = []
  · rw [if_pos hempty]
    have h1 : ¬(s1.length = 4 ∧ s2.length = 4) := by
      rcases hempty with h | h <;> simp [h]
    have h2 : ¬(s1.length = 7 ∧ s2.length = 7) := by
      rcases hempty with h | h <;> simp [h]
    have h3 : ¬(s1.length = 10 ∧ s2.length = 10) := by
      rcases hempty with h | h <;> simp [h]
    rw [if_neg h1, if_neg h2, if_neg h3]
    exact Or.inr ⟨.mismatchedGrain, .datesUnspecified, rfl, rfl⟩
  · rw [if_neg hempty]
    by_cases h44 : s1.length = 4 ∧ s2.length = 4
    · rw [if_pos h44, if_pos h44]
      exact branchRel_to_parseRel (annual_rel s1 s2)
    · rw [if_neg h44, if_neg h44]
      by_cases h77 : s1.length = 7 ∧ s2.length = 7
      · rw [if_pos h77, if_pos h77]
        exact branchRel_to_parseRel (monthly_rel s1 s2)
      · rw [if_neg h77, if_neg h77]
        by_cases h10 : s1.length = 10 ∧ s2.length = 10
        · rw [if_pos h10, if_pos h10]
          exact branchRel_to_parseRel (daily_rel s1 s2)
        · rw [if_neg h10, if_neg h10]
          exact Or.inr ⟨.mismatchedGrain, .mismatchedGrain, rfl, rfl⟩

example : parseRangeStr "1-10+2".data none = .ok [1, 3, 5, 7, 9] := rfl
example : parseRangeStr "1-N".data (some 5) = .ok [1, 2, 3, 4, 5] := rfl
example : parseRangeStr "5-1".data none = .error .startGtEnd := rfl
example : parseRangeStr "0-3".data none = .error .nonPositive := rfl
example : parseRangeStr "1-7".data (some 5) = .error .overMax := rfl
example : parseRangeStr "1--3".data none = .error .malformedRange := rfl

end GCDL
